import Mathlib

/-!
Verification development for the BlockNote repository.

Two source artefacts are embedded:

* `src/ygg/release.mjs` — the release coordinator script.  It is embedded as an
  explicit state-passing interpreter: the ambient effects (workspace query, git
  invocations, registry view, publish, dist-tag) are supplied by an `Release.Env`
  oracle, the on-disk package manifests are a `Release.Disk` map, and every
  external call and manifest read/write is recorded in an event trace.  The two
  `Promise.all` fan-outs of the script are serialised in package-list order;
  each parallel branch touches only its own package's manifest file, and — as in
  the JavaScript semantics of `Promise.all`, where a rejection of one branch does
  not cancel the others — every branch's side effects are performed and the
  first error (in serialisation order) becomes the error of the whole phase.

* the unnamed editor-configuration module (`getBlockNoteExtensionGroups` /
  `getBlockNoteExtensions`) — embedded as pure functions over an options record;
  the third-party Tiptap extensions are represented by an enumeration `Ext`
  (the `configure` arguments do not affect which extension appears where, so
  they are not modelled).
-/

namespace BlockNote

/-- Enumeration of the Tiptap extensions wired up by the editor-configuration
module.  `blockSpecNode name` stands for the configured node of the block-schema
entry with the given key (one per entry of `Object.values(opts.blockSchema)`). -/
inductive Ext where
  | ClipboardTextSerializer
  | Commands
  | Editable
  | FocusEvents
  | Tabindex
  | Gapcursor
  | Placeholder
  | UniqueID
  | HardBreak
  | Text
  | Bold
  | Code
  | Italic
  | Strike
  | Underline
  | Link
  | TextColorMark
  | TextColorExtension
  | BackgroundColorMark
  | BackgroundColorExtension
  | TextAlignmentExtension
  | Doc
  | BlockContainer
  | BlockGroup
  | blockSpecNode (name : String)
  | CustomBlockSerializerExtension
  | Dropcursor
  | TrailingNode
  | Collaboration
  | CollaborationCursor
  | History
  | BlockNoteUIExtension
deriving DecidableEq, Repr

/-- The `collaboration` field of `GetExtensionsOptions`.  `providerAwareness`
models the truthiness of `opts.collaboration.provider?.awareness`;
`renderCursorProvided` models whether `opts.collaboration.renderCursor` is set
(it only changes a `configure` argument, never which extensions appear). -/
structure CollabOptions where
  providerAwareness : Bool
  renderCursorProvided : Bool
deriving DecidableEq, Repr

/-- The options record of `getBlockNoteExtensionGroups`.  `blockSchema` is the
list of keys of the block-schema record (the `editor` and `domAttributes`
fields only feed `configure` arguments and are not modelled). -/
structure GetExtensionsOptions where
  blockSchema : List String
  collaboration : Option CollabOptions
deriving DecidableEq, Repr

/-- One entry of the list returned by `getBlockNoteExtensionGroups`. -/
structure BlockNoteExtensionGroup where
  group : String
  required : Bool
  extensions : List Ext
deriving DecidableEq, Repr

/-- The "Collaboration" group pushed when `opts.collaboration` is set:
`Collaboration` always, then `CollaborationCursor` exactly when
`provider?.awareness` is truthy. -/
def collabGroup (c : CollabOptions) : BlockNoteExtensionGroup :=
  { group := "Collaboration"
    required := true
    extensions :=
      [Ext.Collaboration] ++
        (if c.providerAwareness then [Ext.CollaborationCursor] else []) }

/-- The "History" group pushed when no collaboration option is provided. -/
def historyGroup : BlockNoteExtensionGroup :=
  { group := "History", required := false, extensions := [Ext.History] }

/-- The "Editor" group, pushed last, containing the inline
`BlockNoteUIExtension`. -/
def editorGroup : BlockNoteExtensionGroup :=
  { group := "Editor", required := true, extensions := [Ext.BlockNoteUIExtension] }

/-- Embedding of `getBlockNoteExtensionGroups`: the seven statically listed
groups, then either the collaboration group or the history group, then the
editor group. -/
def getBlockNoteExtensionGroups (opts : GetExtensionsOptions) :
    List BlockNoteExtensionGroup :=
  [ { group := "Core"
      required := true
      extensions :=
        [Ext.ClipboardTextSerializer, Ext.Commands, Ext.Editable,
         Ext.FocusEvents, Ext.Tabindex] },
    { group := "DevTools"
      required := true
      extensions := [Ext.Gapcursor] },
    { group := "DropCursor"
      required := true
      extensions := [Ext.Placeholder, Ext.UniqueID, Ext.HardBreak] },
    { group := "Basics"
      required := true
      extensions := [Ext.Text] },
    { group := "Marks"
      required := false
      extensions :=
        [Ext.Bold, Ext.Code, Ext.Italic, Ext.Strike, Ext.Underline, Ext.Link,
         Ext.TextColorMark, Ext.TextColorExtension, Ext.BackgroundColorMark,
         Ext.BackgroundColorExtension, Ext.TextAlignmentExtension] },
    { group := "Nodes"
      required := true
      extensions :=
        [Ext.Doc, Ext.BlockContainer, Ext.BlockGroup] ++
          opts.blockSchema.map Ext.blockSpecNode ++
          [Ext.CustomBlockSerializerExtension] },
    { group := "Core"
      required := true
      extensions := [Ext.Dropcursor, Ext.TrailingNode] } ]
  ++ (match opts.collaboration with
      | some c => [collabGroup c]
      | none => [historyGroup])
  ++ [editorGroup]

/-- Embedding of `getBlockNoteExtensions`: the flattened extension list. -/
def getBlockNoteExtensions (opts : GetExtensionsOptions) : List Ext :=
  (getBlockNoteExtensionGroups opts).flatMap fun group => group.extensions

/-- A concrete collaboration option used to instantiate the theorems. -/
def cEx : CollabOptions :=
  { providerAwareness := true, renderCursorProvided := false }

/-- A concrete options record used to instantiate the theorems. -/
def optsEx : GetExtensionsOptions :=
  { blockSchema := ["paragraph"], collaboration := some cEx }

end BlockNote

namespace Release

/-- A workspace package record as returned by `npm query ".workspace"`.
`gitHead` is the manifest's optional revision field; `priv` is the manifest's
`private` flag (`private` is a reserved word in Lean). -/
structure Pkg where
  name : String
  path : String
  location : String
  version : String
  gitHead : Option String
  priv : Bool
deriving DecidableEq, Repr

/-- The two manifest fields the script reads and writes.  A `none` field models
an absent key (writing `undefined` through `Object.assign` and
`JSON.stringify` drops the key). -/
structure Manifest where
  version : Option String
  gitHead : Option String
deriving DecidableEq, Repr

/-- The on-disk state: each path holds a manifest. -/
def Disk := String → Manifest

/-- Overwrite the manifest stored at path `p`. -/
def Disk.write (d : Disk) (p : String) (m : Manifest) : Disk :=
  fun q => if q = p then m else d q

/-- One observable event of a run: an external process invocation or a
manifest file read/write. -/
inductive Call where
  | npmQuery
  | gitDescribe
  | gitRevParse
  | manifestRead (path : String)
  | manifestWrite (path : String)
  | npmView (key : String)
  | npmRunPrepublishOnly
  | npmPublish (locations : List String) (tag : String) (noGitChecks : Bool)
  | npmRunPostpublish
  | distTagAdd (key : String) (tag : String)
deriving DecidableEq, Repr

/-- Whether a call is an external process invocation (as opposed to a local
manifest file read or write). -/
def Call.isExternal : Call → Bool
  | Call.manifestRead _ => false
  | Call.manifestWrite _ => false
  | _ => true

/-- Whether a call is the batched publish invocation. -/
def Call.isPublish : Call → Bool
  | Call.npmPublish _ _ _ => true
  | _ => false

/-- Whether a call is a manifest read, a manifest write, or a registry view —
the only events the bump and restore fan-outs emit. -/
def Call.isManifestOrView : Call → Bool
  | Call.manifestRead _ => true
  | Call.manifestWrite _ => true
  | Call.npmView _ => true
  | _ => false

/-- The keys of the `dist-tag add` calls of a trace, in order of issue. -/
def distTagKeys (t : List Call) : List String :=
  t.filterMap fun c =>
    match c with
    | Call.distTagAdd k _ => some k
    | _ => none

/-- Outcome of the manual `npm view pkg@version name --json` probe:
exit code `0`; a failure whose JSON payload has `error.code = "E404"`; or a
failure with any other payload. -/
inductive ViewResult where
  | ok
  | errNotFound
  | errOther
deriving DecidableEq, Repr

/-- The distinct error exits of the script. -/
inductive Err where
  | queryFailed
  | gitFailed
  | badType
  | viewFailed (key : String)
  | prepublishFailed
  | publishFailed
  | postpublishFailed
  | distTagFailed (key : String)
deriving DecidableEq, Repr

/-- Keep the error that was raised first; later failures of other parallel
branches do not replace it. -/
def firstErr (old : Option Err) (e : Err) : Option Err :=
  match old with
  | some e0 => some e0
  | none => some e

/-- The oracle for everything the script consumes from its environment:
the working directory, the outcome and payload of each external command, and
the semantic-versioning increment function `inc vold label`
(the script calls it as `semver.inc(vold, "prerelease", label, false)`,
which returns `null` — here `none` — when no new version results). -/
structure Env where
  cwd : String
  queryOk : Bool
  queryResult : List Pkg
  gitDescribeOk : Bool
  gitVersion : String
  gitRevParseOk : Bool
  gitHead : String
  inc : String → String → Option String
  view : String → ViewResult
  prepublishOk : Bool
  publishOk : Bool
  postpublishOk : Bool
  distTagOk : String → Bool

/-- Lexicographic order on character lists, used to model the default
JavaScript string comparison of `Array.prototype.sort` (code-unit
lexicographic; the package keys involved are ASCII, where code-unit and
code-point order agree). -/
def charListLe : List Char → List Char → Bool
  | [], _ => true
  | _ :: _, [] => false
  | a :: as, b :: bs => if a < b then true else if b < a then false else charListLe as bs

/-- Lexicographic order on strings (see `charListLe`). -/
def strLe (a b : String) : Bool :=
  charListLe a.data b.data

/-- Model of `String.prototype.startsWith`: the second string is a prefix of
the first. -/
def strStartsWith (s p : String) : Bool :=
  p.data.isPrefixOf s.data

/-- The workspace package filter of the script: drop private packages, the
root package (whose path is the working directory), and packages outside the
`@ygg.tools/` scope. -/
def filterPkgs (cwd : String) (pkgs : List Pkg) : List Pkg :=
  pkgs.filter fun pkg =>
    !pkg.priv && pkg.path != cwd && strStartsWith pkg.name "@ygg.tools/"

/-- Result of `changePackageOptions`: the disk after the call, the returned
`optionsOld` (`none` models the `null` return), and the file events emitted. -/
structure ChangeResult where
  disk : Disk
  optionsOld : Option Manifest
  trace : List Call

/-- Embedding of `changePackageOptions(pkg, optionsNew)`: read the manifest at
`pkg.path`; if either proposed field differs from the field in the file, write
the updated manifest back and return the previous values taken from the `pkg`
record, else write nothing and return `null`. -/
def changePackageOptions (disk : Disk) (pkg : Pkg) (optionsNew : Manifest) :
    ChangeResult :=
  let packageJSON := disk pkg.path
  let optionsOld : Manifest := { version := some pkg.version, gitHead := pkg.gitHead }
  if packageJSON.version ≠ optionsNew.version ∨ packageJSON.gitHead ≠ optionsNew.gitHead then
    { disk := Disk.write disk pkg.path optionsNew
      optionsOld := some optionsOld
      trace := [Call.manifestRead pkg.path, Call.manifestWrite pkg.path] }
  else
    { disk := disk
      optionsOld := none
      trace := [Call.manifestRead pkg.path] }

/-- The manifest contents matching a package record: what the restore step
writes back, and what the file held at discovery time in a consistent start
state. -/
def pkgManifest (pkg : Pkg) : Manifest :=
  { version := some pkg.version, gitHead := pkg.gitHead }

/-- The mutable state threaded through a run: the disk, the event trace, the
`packagesToRelease` map (as an insertion-ordered association list), and the
error in flight, if any. -/
structure St where
  disk : Disk
  trace : List Call
  toRelease : List (String × Pkg)
  err : Option Err

/-- Embedding of `Map.prototype.set`: replace the value of an existing key in
place, else append the new entry. -/
def mapSet (m : List (String × Pkg)) (k : String) (v : Pkg) :
    List (String × Pkg) :=
  if k ∈ m.map Prod.fst then
    m.map fun kv => if kv.1 = k then (k, v) else kv
  else
    m ++ [(k, v)]

/-- One branch of the bump fan-out for one package: compute the prerelease
increment; when it yields a new version, write it (with the current revision
hash) into the manifest, probe the registry for `name@vnew`, and on an `E404`
payload schedule the package for release; any other probe failure is this
branch's error.  When the increment yields nothing, the branch does nothing. -/
def bumpStep (env : Env) (s : St) (pkg : Pkg) : St :=
  match env.inc pkg.version ("git." ++ env.gitVersion) with
  | none => s
  | some vnew =>
    let cr := changePackageOptions s.disk pkg
      { version := some vnew, gitHead := some env.gitHead }
    let pkgFullName := pkg.name ++ "@" ++ vnew
    let trace := s.trace ++ cr.trace ++ [Call.npmView pkgFullName]
    match env.view pkgFullName with
    | ViewResult.ok => { s with disk := cr.disk, trace := trace }
    | ViewResult.errNotFound =>
      { s with
        disk := cr.disk
        trace := trace
        toRelease := mapSet s.toRelease pkgFullName pkg }
    | ViewResult.errOther =>
      { s with
        disk := cr.disk
        trace := trace
        err := firstErr s.err (Err.viewFailed pkgFullName) }

/-- The bump fan-out, serialised in package-list order. -/
def bumpPhase (env : Env) (s : St) (pkgs : List Pkg) : St :=
  pkgs.foldl (bumpStep env) s

/-- The publish step: run `prepublishOnly` (abort if it fails), then the single
batched publish across every discovered package with tag `"ci"` and
`--no-git-checks`, then — in a `finally` — `postpublish`.  A `postpublish`
failure masks a publish failure, exactly as a throw from a `finally` block
does. -/
def publishPhase (env : Env) (pkgs : List Pkg) (s : St) : St :=
  let s1 : St := { s with trace := s.trace ++ [Call.npmRunPrepublishOnly] }
  if env.prepublishOk then
    let s2 : St :=
      { s1 with
        trace := s1.trace ++ [Call.npmPublish (pkgs.map Pkg.location) "ci" true] }
    let s3 : St := { s2 with trace := s2.trace ++ [Call.npmRunPostpublish] }
    if env.postpublishOk then
      if env.publishOk then s3 else { s3 with err := some Err.publishFailed }
    else
      { s3 with err := some Err.postpublishFailed }
  else
    { s1 with err := some Err.prepublishFailed }

/-- The ordering relation `sortKeys` sorts by, as a proposition. -/
def keyLe (a b : String) : Prop :=
  strLe a b = true

instance : DecidableRel keyLe := fun a b =>
  (instDecidableEqBool (strLe a b) true : Decidable (keyLe a b))

instance : IsTotal String keyLe where
  total a b := by
    unfold keyLe strLe
    generalize a.data = x
    generalize b.data = y
    induction x generalizing y with
    | nil => exact Or.inl rfl
    | cons c cs ih =>
      cases y with
      | nil => exact Or.inr rfl
      | cons d ds =>
        by_cases hcd : c < d
        · exact Or.inl (by simp [charListLe, hcd])
        · by_cases hdc : d < c
          · exact Or.inr (by simp [charListLe, hdc])
          · have hed : c = d := le_antisymm (not_lt.mp hdc) (not_lt.mp hcd)
            subst hed
            rcases ih ds with h | h
            · exact Or.inl (by simp [charListLe, lt_irrefl, h])
            · exact Or.inr (by simp [charListLe, lt_irrefl, h])

instance : IsTrans String keyLe where
  trans a b c hab hbc := by
    unfold keyLe strLe at hab hbc ⊢
    generalize a.data = x at hab ⊢
    generalize b.data = y at hab hbc
    generalize c.data = z at hbc ⊢
    induction x generalizing y z with
    | nil => rfl
    | cons cx xs ih =>
      cases y with
      | nil => simp [charListLe] at hab
      | cons cy ys =>
        cases z with
        | nil => simp [charListLe] at hbc
        | cons cz zs =>
          simp only [charListLe] at hab hbc ⊢
          by_cases h1 : cx < cy
          · by_cases h2 : cy < cz
            · simp [lt_trans h1 h2]
            · by_cases h3 : cz < cy
              · simp [h2, h3] at hbc
              · have hyz : cy = cz := le_antisymm (not_lt.mp h3) (not_lt.mp h2)
                subst hyz
                simp [h1]
          · by_cases h1' : cy < cx
            · simp [h1, h1'] at hab
            · have hxy : cx = cy := le_antisymm (not_lt.mp h1') (not_lt.mp h1)
              subst hxy
              simp only [lt_irrefl, if_false] at hab
              by_cases h2 : cx < cz
              · simp [h2]
              · by_cases h3 : cz < cx
                · simp [h2, h3] at hbc
                · have hxz : cx = cz := le_antisymm (not_lt.mp h3) (not_lt.mp h2)
                  subst hxz
                  simp only [lt_irrefl, if_false] at hbc ⊢
                  exact ih ys hab zs hbc

instance : IsAntisymm String keyLe where
  antisymm a b hab hba := by
    unfold keyLe strLe at hab hba
    cases a with
    | mk x =>
      cases b with
      | mk y =>
        simp only at hab hba
        congr 1
        induction x generalizing y with
        | nil =>
          cases y with
          | nil => rfl
          | cons d ds => simp [charListLe] at hba
        | cons c cs ih =>
          cases y with
          | nil => simp [charListLe] at hab
          | cons d ds =>
            simp only [charListLe] at hab hba
            by_cases hcd : c < d
            · simp [hcd, lt_asymm hcd] at hba
            · by_cases hdc : d < c
              · simp [hcd, hdc] at hab
              · have hed : c = d := le_antisymm (not_lt.mp hdc) (not_lt.mp hcd)
                subst hed
                simp only [lt_irrefl, if_false] at hab hba
                rw [ih ds hab hba]

/-- Sorting of `packageKeys` via the default lexicographic string order. -/
def sortKeys (l : List String) : List String :=
  List.insertionSort keyLe l

/-- The `edge` dist-tag fan-out: the candidate keys are sorted and a
`dist-tag add key edge` call is issued for each; all calls are issued (the
fan-out promises are created eagerly), and the first failing key, if any,
becomes the phase's error. -/
def distTagPhase (env : Env) (s : St) : St :=
  let packageKeys := sortKeys (s.toRelease.map Prod.fst)
  let trace := s.trace ++ packageKeys.map fun k => Call.distTagAdd k "edge"
  match packageKeys.find? (fun k => !env.distTagOk k) with
  | some k => { s with trace := trace, err := firstErr s.err (Err.distTagFailed k) }
  | none => { s with trace := trace }

/-- The `ci` case of the switch: bump fan-out, then — only when the fan-out
raised no error — the publish step. -/
def ciBody (env : Env) (pkgs : List Pkg) (s : St) : St :=
  let s1 := bumpPhase env s pkgs
  match s1.err with
  | some _ => s1
  | none => publishPhase env pkgs s1

/-- The body of the outer `try` block: the switch on `--type` (only `"ci"` is
implemented; anything else throws the configuration error), followed — when no
error is in flight — by the dist-tag fan-out. -/
def tryBody (env : Env) (argsType : Option String) (pkgs : List Pkg) (s : St) : St :=
  let s1 :=
    if argsType = some "ci" then ciBody env pkgs s
    else { s with err := some Err.badType }
  match s1.err with
  | some _ => s1
  | none => distTagPhase env s1

/-- One branch of the restore fan-out: write the package's original version
and revision back (the `optionsNew` record `pkgManifest pkg` is literally
`{version: pkg.version, gitHead: pkg.gitHead}`), only if the file currently
differs. -/
def restoreStep (s : St) (pkg : Pkg) : St :=
  let cr := changePackageOptions s.disk pkg (pkgManifest pkg)
  { s with disk := cr.disk, trace := s.trace ++ cr.trace }

/-- The restore fan-out of the outermost `finally` block, serialised in
package-list order. -/
def restorePhase (s : St) (pkgs : List Pkg) : St :=
  pkgs.foldl restoreStep s

/-- The whole script run: workspace query, the two git invocations (each fatal
on failure, and all three placed before the `try`/`finally`), then the `try`
body, then — on every path through the `try` body — the restore fan-out. -/
def run (argsType : Option String) (env : Env) (disk0 : Disk) : St :=
  let s0 : St := { disk := disk0, trace := [Call.npmQuery], toRelease := [], err := none }
  if env.queryOk then
    let pkgs := filterPkgs env.cwd env.queryResult
    let s1 : St := { s0 with trace := s0.trace ++ [Call.gitDescribe] }
    if env.gitDescribeOk then
      let s2 : St := { s1 with trace := s1.trace ++ [Call.gitRevParse] }
      if env.gitRevParseOk then
        restorePhase (tryBody env argsType pkgs s2) pkgs
      else
        { s2 with err := some Err.gitFailed }
    else
      { s1 with err := some Err.gitFailed }
  else
    { s0 with err := some Err.queryFailed }

/-- The state after the three successful start-up calls (workspace query and
the two git invocations), just before the `try` block. -/
def initSt (disk0 : Disk) : St :=
  { disk := disk0
    trace := [Call.npmQuery, Call.gitDescribe, Call.gitRevParse]
    toRelease := []
    err := none }

/-- A concrete workspace package used to instantiate the theorems. -/
def pkgA : Pkg :=
  { name := "@ygg.tools/a"
    path := "/w/a"
    location := "packages/a"
    version := "1.0.0"
    gitHead := some "h0"
    priv := false }

/-- A concrete start disk consistent with `pkgA`. -/
def disk0Ex : Disk :=
  fun p =>
    if p = "/w/a" then { version := some "1.0.0", gitHead := some "h0" }
    else { version := none, gitHead := none }

/-- A concrete environment: one workspace package, all external commands
succeed, the registry probe reports `E404`. -/
def envEx : Env :=
  { cwd := "/w"
    queryOk := true
    queryResult := [pkgA]
    gitDescribeOk := true
    gitVersion := "v1"
    gitRevParseOk := true
    gitHead := "h1"
    inc := fun v _ => if v = "1.0.0" then some "1.0.1-0.git.v1" else none
    view := fun _ => ViewResult.errNotFound
    prepublishOk := true
    publishOk := true
    postpublishOk := true
    distTagOk := fun _ => true }

/-- The concrete environment with a failing publish invocation. -/
def envExPubFail : Env :=
  { envEx with publishOk := false }

/-- The concrete environment in which the increment yields no new version. -/
def envExNoBump : Env :=
  { envEx with inc := fun _ _ => none }

end Release

namespace Release

theorem Manifest.eq_of {m n : Manifest} (h1 : m.version = n.version)
    (h2 : m.gitHead = n.gitHead) : m = n := by
  cases m; cases n; simp_all

theorem Disk.write_self (d : Disk) (p : String) (m : Manifest) :
    Disk.write d p m p = m := by
  simp [Disk.write]

theorem Disk.write_other (d : Disk) (p q : String) (m : Manifest) (h : q ≠ p) :
    Disk.write d p m q = d q := by
  simp [Disk.write, h]

theorem cpo_disk_self (d : Disk) (pkg : Pkg) (n : Manifest) :
    (changePackageOptions d pkg n).disk pkg.path = n := by
  unfold changePackageOptions
  dsimp only
  split
  · exact Disk.write_self ..
  · next h =>
    push_neg at h
    exact Manifest.eq_of h.1 h.2

theorem cpo_disk_other (d : Disk) (pkg : Pkg) (n : Manifest) (q : String)
    (h : q ≠ pkg.path) : (changePackageOptions d pkg n).disk q = d q := by
  unfold changePackageOptions
  dsimp only
  split
  · exact Disk.write_other _ _ _ _ h
  · rfl

theorem cpo_trace_sub (d : Disk) (pkg : Pkg) (n : Manifest) :
    ∀ c ∈ (changePackageOptions d pkg n).trace,
      c = Call.manifestRead pkg.path ∨ c = Call.manifestWrite pkg.path := by
  unfold changePackageOptions
  dsimp only
  split <;> simp

theorem cpo_write_mem_iff (d : Disk) (pkg : Pkg) (n : Manifest) (p : String) :
    Call.manifestWrite p ∈ (changePackageOptions d pkg n).trace ↔
      (p = pkg.path ∧
        ((d pkg.path).version ≠ n.version ∨ (d pkg.path).gitHead ≠ n.gitHead)) := by
  unfold changePackageOptions
  dsimp only
  split
  · next h => simp_all [eq_comm]
  · next h => simp_all

theorem cpo_optionsOld_isSome_iff (d : Disk) (pkg : Pkg) (n : Manifest) :
    (changePackageOptions d pkg n).optionsOld.isSome = true ↔
      ((d pkg.path).version ≠ n.version ∨ (d pkg.path).gitHead ≠ n.gitHead) := by
  unfold changePackageOptions
  dsimp only
  split <;> simp_all

theorem cpo_noop (d : Disk) (pkg : Pkg) (n : Manifest)
    (h : ¬((d pkg.path).version ≠ n.version ∨ (d pkg.path).gitHead ≠ n.gitHead)) :
    changePackageOptions d pkg n =
      { disk := d, optionsOld := none, trace := [Call.manifestRead pkg.path] } := by
  unfold changePackageOptions
  dsimp only
  split
  · next h' => exact absurd h' h
  · rfl

theorem cpo_noop_of_eq (d : Disk) (pkg : Pkg) (n : Manifest) (h : d pkg.path = n) :
    changePackageOptions d pkg n =
      { disk := d, optionsOld := none, trace := [Call.manifestRead pkg.path] } := by
  apply cpo_noop
  simp [h]

theorem restoreStep_err (s : St) (pkg : Pkg) : (restoreStep s pkg).err = s.err := rfl

theorem restoreStep_toRelease (s : St) (pkg : Pkg) :
    (restoreStep s pkg).toRelease = s.toRelease := rfl

theorem restoreStep_trace (s : St) (pkg : Pkg) :
    (restoreStep s pkg).trace =
      s.trace ++ (changePackageOptions s.disk pkg (pkgManifest pkg)).trace := rfl

theorem restoreStep_disk_self (s : St) (pkg : Pkg) :
    (restoreStep s pkg).disk pkg.path = pkgManifest pkg :=
  cpo_disk_self ..

theorem restoreStep_disk_other (s : St) (pkg : Pkg) (q : String) (h : q ≠ pkg.path) :
    (restoreStep s pkg).disk q = s.disk q :=
  cpo_disk_other _ _ _ _ h

theorem restorePhase_cons (s : St) (p : Pkg) (rest : List Pkg) :
    restorePhase s (p :: rest) = restorePhase (restoreStep s p) rest := rfl

theorem restorePhase_err (s : St) (pkgs : List Pkg) :
    (restorePhase s pkgs).err = s.err := by
  induction pkgs generalizing s with
  | nil => rfl
  | cons p rest ih => rw [restorePhase_cons, ih, restoreStep_err]

theorem restorePhase_toRelease (s : St) (pkgs : List Pkg) :
    (restorePhase s pkgs).toRelease = s.toRelease := by
  induction pkgs generalizing s with
  | nil => rfl
  | cons p rest ih => rw [restorePhase_cons, ih, restoreStep_toRelease]

theorem restorePhase_disk_other (s : St) (pkgs : List Pkg) (q : String)
    (h : ∀ p ∈ pkgs, p.path ≠ q) : (restorePhase s pkgs).disk q = s.disk q := by
  induction pkgs generalizing s with
  | nil => rfl
  | cons p rest ih =>
    rw [restorePhase_cons, ih _ fun x hx => h x (List.mem_cons_of_mem _ hx)]
    exact restoreStep_disk_other _ _ _ fun hq => h p (List.mem_cons_self ..) hq.symm

theorem restorePhase_disk_mem (s : St) (pkgs : List Pkg) (pkg : Pkg)
    (hmem : pkg ∈ pkgs) (hnd : (pkgs.map Pkg.path).Nodup) :
    (restorePhase s pkgs).disk pkg.path = pkgManifest pkg := by
  induction pkgs generalizing s with
  | nil => cases hmem
  | cons p rest ih =>
    rw [restorePhase_cons]
    rcases List.mem_cons.mp hmem with h | h
    · subst h
      have hhead : pkg.path ∉ rest.map Pkg.path := (List.nodup_cons.mp (by simpa using hnd)).1
      have hnotin : ∀ q ∈ rest, q.path ≠ pkg.path := by
        intro q hq he
        exact hhead (he ▸ List.mem_map_of_mem Pkg.path hq)
      rw [restorePhase_disk_other _ _ _ hnotin]
      exact restoreStep_disk_self ..
    · exact ih _ h (List.nodup_cons.mp (by simpa using hnd)).2


theorem restorePhase_trace_seg (s : St) (pkgs : List Pkg) :
    ∃ t, (restorePhase s pkgs).trace = s.trace ++ t ∧
      (∀ c ∈ t, Call.isManifestOrView c = true) ∧
      (∀ p, Call.manifestWrite p ∈ t → ∃ q ∈ pkgs, q.path = p) := by
  induction pkgs generalizing s with
  | nil => exact ⟨[], by simp [restorePhase], by simp, by simp⟩
  | cons p rest ih =>
    obtain ⟨t, ht, hP, hW⟩ := ih (restoreStep s p)
    refine ⟨(changePackageOptions s.disk p (pkgManifest p)).trace ++ t, ?_, ?_, ?_⟩
    · rw [restorePhase_cons, ht, restoreStep_trace, List.append_assoc]
    · intro c hc
      rcases List.mem_append.mp hc with h | h
      · rcases cpo_trace_sub _ _ _ c h with h' | h' <;> subst h' <;> rfl
      · exact hP c h
    · intro pth hpth
      rcases List.mem_append.mp hpth with h | h
      · rcases cpo_trace_sub _ _ _ _ h with h' | h'
        · simp at h'
        · refine ⟨p, List.mem_cons_self .., ?_⟩
          have := (Call.manifestWrite.injEq _ _).mp h'
          exact this.symm
      · obtain ⟨q, hq, hqp⟩ := hW pth h
        exact ⟨q, List.mem_cons_of_mem _ hq, hqp⟩

theorem restorePhase_noop (s : St) (pkgs : List Pkg)
    (h : ∀ q ∈ pkgs, s.disk q.path = pkgManifest q) :
    restorePhase s pkgs =
      { s with trace := s.trace ++ pkgs.map fun q => Call.manifestRead q.path } := by
  induction pkgs generalizing s with
  | nil => simp [restorePhase]
  | cons p rest ih =>
    rw [restorePhase_cons]
    have hstep : restoreStep s p = { s with trace := s.trace ++ [Call.manifestRead p.path] } := by
      unfold restoreStep
      dsimp only
      rw [cpo_noop_of_eq _ _ _ (h p (List.mem_cons_self ..))]
    rw [hstep,
      ih { s with trace := s.trace ++ [Call.manifestRead p.path] }
        (by intro q hq; exact h q (List.mem_cons_of_mem _ hq))]
    simp [List.append_assoc]

theorem restorePhase_no_write_self (s : St) (pkgs : List Pkg) (pkg : Pkg)
    (hmem : pkg ∈ pkgs) (hnd : (pkgs.map Pkg.path).Nodup)
    (hcons : s.disk pkg.path = pkgManifest pkg) :
    ∃ t, (restorePhase s pkgs).trace = s.trace ++ t ∧
      Call.manifestWrite pkg.path ∉ t := by
  induction pkgs generalizing s with
  | nil => cases hmem
  | cons p rest ih =>
    rw [restorePhase_cons]
    rcases List.mem_cons.mp hmem with h | h
    · subst h
      have hstep : restoreStep s pkg =
          { s with trace := s.trace ++ [Call.manifestRead pkg.path] } := by
        unfold restoreStep
        dsimp only
        rw [cpo_noop_of_eq _ _ _ hcons]
      obtain ⟨t, ht, _, hW⟩ := restorePhase_trace_seg (restoreStep s pkg) rest
      refine ⟨[Call.manifestRead pkg.path] ++ t, ?_, ?_⟩
      · rw [ht, hstep, List.append_assoc]
      · intro hw
        rcases List.mem_append.mp hw with h' | h'
        · simp at h'
        · obtain ⟨q, hq, hqp⟩ := hW _ h'
          have hhead : pkg.path ∉ rest.map Pkg.path := (List.nodup_cons.mp (by simpa using hnd)).1
          exact hhead (hqp ▸ List.mem_map_of_mem Pkg.path hq)
    · have hhead : p.path ∉ rest.map Pkg.path := (List.nodup_cons.mp (by simpa using hnd)).1
      have hne : pkg.path ≠ p.path := by
        intro he
        exact hhead (he ▸ List.mem_map_of_mem Pkg.path h)
      have hcons' : (restoreStep s p).disk pkg.path = pkgManifest pkg := by
        rw [restoreStep_disk_other _ _ _ hne]; exact hcons
      obtain ⟨t, ht, hnw⟩ := ih _ h (List.nodup_cons.mp (by simpa using hnd)).2 hcons'
      refine ⟨(changePackageOptions s.disk p (pkgManifest p)).trace ++ t, ?_, ?_⟩
      · rw [ht, restoreStep_trace, List.append_assoc]
      · intro hw
        rcases List.mem_append.mp hw with h' | h'
        · rcases cpo_trace_sub _ _ _ _ h' with h'' | h''
          · simp at h''
          · have := (Call.manifestWrite.injEq _ _).mp h''
            exact hne this
        · exact hnw h'

theorem mapSet_mem_fst_self (m : List (String × Pkg)) (k : String) (v : Pkg) :
    k ∈ (mapSet m k v).map Prod.fst := by
  unfold mapSet
  split
  · next h =>
    obtain ⟨kv, hkv, hfst⟩ := List.mem_map.mp h
    exact List.mem_map.mpr ⟨(k, v), List.mem_map.mpr ⟨kv, hkv, by simp [hfst]⟩, rfl⟩
  · simp

theorem mapSet_mem_fst_mono (m : List (String × Pkg)) (k a : String) (v : Pkg)
    (h : a ∈ m.map Prod.fst) : a ∈ (mapSet m k v).map Prod.fst := by
  unfold mapSet
  split
  · obtain ⟨kv, hkv, hfst⟩ := List.mem_map.mp h
    by_cases he : kv.1 = k
    · exact List.mem_map.mpr ⟨(k, v), List.mem_map.mpr ⟨kv, hkv, by simp [he]⟩, by
        simp [← hfst, he]⟩
    · exact List.mem_map.mpr ⟨kv, List.mem_map.mpr ⟨kv, hkv, by simp [he]⟩, hfst⟩
  · rw [List.map_append]
    exact List.mem_append.mpr (Or.inl h)

theorem mapSet_not_mem_fst (m : List (String × Pkg)) (k a : String) (v : Pkg)
    (hne : a ≠ k) (h : a ∉ m.map Prod.fst) : a ∉ (mapSet m k v).map Prod.fst := by
  unfold mapSet
  split
  · intro hmem
    obtain ⟨kv', hkv', hfst⟩ := List.mem_map.mp hmem
    obtain ⟨kv, hkv, heq⟩ := List.mem_map.mp hkv'
    by_cases he : kv.1 = k
    · rw [if_pos he] at heq
      exact hne (by rw [← hfst, ← heq])
    · rw [if_neg he] at heq
      exact h (List.mem_map.mpr ⟨kv, hkv, by rw [heq, hfst]⟩)
  · intro hmem
    rw [List.map_append] at hmem
    rcases List.mem_append.mp hmem with h' | h'
    · exact h h'
    · simp at h'
      exact hne h'

theorem firstErr_isSome (o : Option Err) (e : Err) : (firstErr o e).isSome = true := by
  cases o <;> rfl

theorem firstErr_some (e0 : Err) (e : Err) : firstErr (some e0) e = some e0 := rfl

theorem firstErr_none (e : Err) : firstErr none e = some e := rfl

theorem bumpStep_none (env : Env) (s : St) (pkg : Pkg)
    (h : env.inc pkg.version ("git." ++ env.gitVersion) = none) :
    bumpStep env s pkg = s := by
  unfold bumpStep
  rw [h]

theorem bumpStep_some_ok (env : Env) (s : St) (pkg : Pkg) (vnew : String)
    (hinc : env.inc pkg.version ("git." ++ env.gitVersion) = some vnew)
    (hview : env.view (pkg.name ++ "@" ++ vnew) = ViewResult.ok) :
    bumpStep env s pkg =
      { s with
        disk := (changePackageOptions s.disk pkg
          { version := some vnew, gitHead := some env.gitHead }).disk
        trace := s.trace ++ (changePackageOptions s.disk pkg
            { version := some vnew, gitHead := some env.gitHead }).trace
          ++ [Call.npmView (pkg.name ++ "@" ++ vnew)] } := by
  unfold bumpStep
  rw [hinc]
  dsimp only
  rw [hview]

theorem bumpStep_some_notFound (env : Env) (s : St) (pkg : Pkg) (vnew : String)
    (hinc : env.inc pkg.version ("git." ++ env.gitVersion) = some vnew)
    (hview : env.view (pkg.name ++ "@" ++ vnew) = ViewResult.errNotFound) :
    bumpStep env s pkg =
      { s with
        disk := (changePackageOptions s.disk pkg
          { version := some vnew, gitHead := some env.gitHead }).disk
        trace := s.trace ++ (changePackageOptions s.disk pkg
            { version := some vnew, gitHead := some env.gitHead }).trace
          ++ [Call.npmView (pkg.name ++ "@" ++ vnew)]
        toRelease := mapSet s.toRelease (pkg.name ++ "@" ++ vnew) pkg } := by
  unfold bumpStep
  rw [hinc]
  dsimp only
  rw [hview]

theorem bumpStep_some_errOther (env : Env) (s : St) (pkg : Pkg) (vnew : String)
    (hinc : env.inc pkg.version ("git." ++ env.gitVersion) = some vnew)
    (hview : env.view (pkg.name ++ "@" ++ vnew) = ViewResult.errOther) :
    bumpStep env s pkg =
      { s with
        disk := (changePackageOptions s.disk pkg
          { version := some vnew, gitHead := some env.gitHead }).disk
        trace := s.trace ++ (changePackageOptions s.disk pkg
            { version := some vnew, gitHead := some env.gitHead }).trace
          ++ [Call.npmView (pkg.name ++ "@" ++ vnew)]
        err := firstErr s.err (Err.viewFailed (pkg.name ++ "@" ++ vnew)) } := by
  unfold bumpStep
  rw [hinc]
  dsimp only
  rw [hview]

theorem seg_isManifestOrView (d : Disk) (pkg : Pkg) (n : Manifest) (k : String) :
    ∀ c ∈ (changePackageOptions d pkg n).trace ++ [Call.npmView k],
      Call.isManifestOrView c = true := by
  intro c hc
  rcases List.mem_append.mp hc with h | h
  · rcases cpo_trace_sub _ _ _ c h with h' | h' <;> subst h' <;> rfl
  · simp at h
    subst h
    rfl

theorem seg_writes (d : Disk) (pkg : Pkg) (n : Manifest) (k p : String) :
    Call.manifestWrite p ∈ (changePackageOptions d pkg n).trace ++ [Call.npmView k] →
      p = pkg.path := by
  intro h
  rcases List.mem_append.mp h with h' | h'
  · rcases cpo_trace_sub _ _ _ _ h' with h'' | h''
    · simp at h''
    · exact (Call.manifestWrite.injEq _ _).mp h''
  · simp at h'

theorem bumpStep_err_some (env : Env) (s : St) (pkg : Pkg) (e : Err)
    (hs : s.err = some e) : (bumpStep env s pkg).err = some e := by
  rcases hinc : env.inc pkg.version ("git." ++ env.gitVersion) with _ | vnew
  · rw [bumpStep_none _ _ _ hinc, hs]
  · rcases hview : env.view (pkg.name ++ "@" ++ vnew) with _ | _ | _
    · rw [bumpStep_some_ok _ _ _ _ hinc hview]; exact hs
    · rw [bumpStep_some_notFound _ _ _ _ hinc hview]; exact hs
    · rw [bumpStep_some_errOther _ _ _ _ hinc hview]
      show firstErr s.err _ = some e
      rw [hs]
      rfl

theorem bumpStep_err_none (env : Env) (s : St) (pkg : Pkg)
    (hs : s.err = none)
    (hv : ∀ v, env.inc pkg.version ("git." ++ env.gitVersion) = some v →
      env.view (pkg.name ++ "@" ++ v) ≠ ViewResult.errOther) :
    (bumpStep env s pkg).err = none := by
  rcases hinc : env.inc pkg.version ("git." ++ env.gitVersion) with _ | vnew
  · rw [bumpStep_none _ _ _ hinc, hs]
  · rcases hview : env.view (pkg.name ++ "@" ++ vnew) with _ | _ | _
    · rw [bumpStep_some_ok _ _ _ _ hinc hview]; exact hs
    · rw [bumpStep_some_notFound _ _ _ _ hinc hview]; exact hs
    · exact absurd hview (hv vnew hinc)

theorem bumpStep_err_isSome_mono (env : Env) (s : St) (pkg : Pkg)
    (hs : s.err.isSome = true) : (bumpStep env s pkg).err.isSome = true := by
  rcases ho : s.err with _ | e
  · rw [ho] at hs; cases hs
  · rw [bumpStep_err_some _ _ _ _ ho]; rfl

theorem bumpStep_errOther_isSome (env : Env) (s : St) (pkg : Pkg) (vnew : String)
    (hinc : env.inc pkg.version ("git." ++ env.gitVersion) = some vnew)
    (hview : env.view (pkg.name ++ "@" ++ vnew) = ViewResult.errOther) :
    (bumpStep env s pkg).err.isSome = true := by
  rw [bumpStep_some_errOther _ _ _ _ hinc hview]
  exact firstErr_isSome ..

theorem bumpStep_toRelease_mono (env : Env) (s : St) (pkg : Pkg) (k : String)
    (h : k ∈ s.toRelease.map Prod.fst) :
    k ∈ (bumpStep env s pkg).toRelease.map Prod.fst := by
  rcases hinc : env.inc pkg.version ("git." ++ env.gitVersion) with _ | vnew
  · rw [bumpStep_none _ _ _ hinc]; exact h
  · rcases hview : env.view (pkg.name ++ "@" ++ vnew) with _ | _ | _
    · rw [bumpStep_some_ok _ _ _ _ hinc hview]; exact h
    · rw [bumpStep_some_notFound _ _ _ _ hinc hview]
      exact mapSet_mem_fst_mono _ _ _ _ h
    · rw [bumpStep_some_errOther _ _ _ _ hinc hview]; exact h

theorem bumpStep_toRelease_add (env : Env) (s : St) (pkg : Pkg) (vnew : String)
    (hinc : env.inc pkg.version ("git." ++ env.gitVersion) = some vnew)
    (hview : env.view (pkg.name ++ "@" ++ vnew) = ViewResult.errNotFound) :
    (pkg.name ++ "@" ++ vnew) ∈ (bumpStep env s pkg).toRelease.map Prod.fst := by
  rw [bumpStep_some_notFound _ _ _ _ hinc hview]
  exact mapSet_mem_fst_self ..

theorem bumpStep_toRelease_not_add (env : Env) (s : St) (pkg : Pkg) (k : String)
    (h : k ∉ s.toRelease.map Prod.fst)
    (hk : ∀ v, env.inc pkg.version ("git." ++ env.gitVersion) = some v →
      env.view (pkg.name ++ "@" ++ v) = ViewResult.errNotFound →
      pkg.name ++ "@" ++ v ≠ k) :
    k ∉ (bumpStep env s pkg).toRelease.map Prod.fst := by
  rcases hinc : env.inc pkg.version ("git." ++ env.gitVersion) with _ | vnew
  · rw [bumpStep_none _ _ _ hinc]; exact h
  · rcases hview : env.view (pkg.name ++ "@" ++ vnew) with _ | _ | _
    · rw [bumpStep_some_ok _ _ _ _ hinc hview]; exact h
    · rw [bumpStep_some_notFound _ _ _ _ hinc hview]
      exact mapSet_not_mem_fst _ _ _ _ (Ne.symm (hk vnew hinc hview)) h
    · rw [bumpStep_some_errOther _ _ _ _ hinc hview]; exact h

theorem bumpStep_trace_seg (env : Env) (s : St) (pkg : Pkg) :
    ∃ t, (bumpStep env s pkg).trace = s.trace ++ t ∧
      (∀ c ∈ t, Call.isManifestOrView c = true) ∧
      (∀ p, Call.manifestWrite p ∈ t →
        p = pkg.path ∧
          (env.inc pkg.version ("git." ++ env.gitVersion)).isSome = true) := by
  rcases hinc : env.inc pkg.version ("git." ++ env.gitVersion) with _ | vnew
  · exact ⟨[], by rw [bumpStep_none _ _ _ hinc]; simp, by simp, by simp⟩
  · rcases hview : env.view (pkg.name ++ "@" ++ vnew) with _ | _ | _
    · refine ⟨(changePackageOptions s.disk pkg
          { version := some vnew, gitHead := some env.gitHead }).trace
            ++ [Call.npmView (pkg.name ++ "@" ++ vnew)],
        ?_, seg_isManifestOrView _ _ _ _, fun p hp => ⟨seg_writes _ _ _ _ _ hp, rfl⟩⟩
      rw [bumpStep_some_ok _ _ _ _ hinc hview, List.append_assoc]
    · refine ⟨(changePackageOptions s.disk pkg
          { version := some vnew, gitHead := some env.gitHead }).trace
            ++ [Call.npmView (pkg.name ++ "@" ++ vnew)],
        ?_, seg_isManifestOrView _ _ _ _, fun p hp => ⟨seg_writes _ _ _ _ _ hp, rfl⟩⟩
      rw [bumpStep_some_notFound _ _ _ _ hinc hview, List.append_assoc]
    · refine ⟨(changePackageOptions s.disk pkg
          { version := some vnew, gitHead := some env.gitHead }).trace
            ++ [Call.npmView (pkg.name ++ "@" ++ vnew)],
        ?_, seg_isManifestOrView _ _ _ _, fun p hp => ⟨seg_writes _ _ _ _ _ hp, rfl⟩⟩
      rw [bumpStep_some_errOther _ _ _ _ hinc hview, List.append_assoc]

theorem bumpStep_disk_other (env : Env) (s : St) (pkg : Pkg) (q : String)
    (h : q ≠ pkg.path) : (bumpStep env s pkg).disk q = s.disk q := by
  rcases hinc : env.inc pkg.version ("git." ++ env.gitVersion) with _ | vnew
  · rw [bumpStep_none _ _ _ hinc]
  · rcases hview : env.view (pkg.name ++ "@" ++ vnew) with _ | _ | _
    · rw [bumpStep_some_ok _ _ _ _ hinc hview]
      exact cpo_disk_other _ _ _ _ h
    · rw [bumpStep_some_notFound _ _ _ _ hinc hview]
      exact cpo_disk_other _ _ _ _ h
    · rw [bumpStep_some_errOther _ _ _ _ hinc hview]
      exact cpo_disk_other _ _ _ _ h

theorem bumpPhase_cons (env : Env) (s : St) (p : Pkg) (rest : List Pkg) :
    bumpPhase env s (p :: rest) = bumpPhase env (bumpStep env s p) rest := rfl

theorem bumpPhase_err_some (env : Env) (s : St) (pkgs : List Pkg) (e : Err)
    (hs : s.err = some e) : (bumpPhase env s pkgs).err = some e := by
  induction pkgs generalizing s with
  | nil => exact hs
  | cons p rest ih => exact ih _ (bumpStep_err_some _ _ _ _ hs)

theorem bumpPhase_err_none (env : Env) (s : St) (pkgs : List Pkg)
    (hs : s.err = none)
    (hv : ∀ pkg ∈ pkgs, ∀ v,
      env.inc pkg.version ("git." ++ env.gitVersion) = some v →
      env.view (pkg.name ++ "@" ++ v) ≠ ViewResult.errOther) :
    (bumpPhase env s pkgs).err = none := by
  induction pkgs generalizing s with
  | nil => exact hs
  | cons p rest ih =>
    exact ih _ (bumpStep_err_none _ _ _ hs (hv p (List.mem_cons_self ..)))
      fun q hq => hv q (List.mem_cons_of_mem _ hq)

theorem bumpPhase_err_isSome_mono (env : Env) (s : St) (pkgs : List Pkg)
    (hs : s.err.isSome = true) : (bumpPhase env s pkgs).err.isSome = true := by
  induction pkgs generalizing s with
  | nil => exact hs
  | cons p rest ih => exact ih _ (bumpStep_err_isSome_mono _ _ _ hs)

theorem bumpPhase_err_isSome_of_mem (env : Env) (s : St) (pkgs : List Pkg)
    (pkg : Pkg) (vnew : String) (hmem : pkg ∈ pkgs)
    (hinc : env.inc pkg.version ("git." ++ env.gitVersion) = some vnew)
    (hview : env.view (pkg.name ++ "@" ++ vnew) = ViewResult.errOther) :
    (bumpPhase env s pkgs).err.isSome = true := by
  induction pkgs generalizing s with
  | nil => cases hmem
  | cons p rest ih =>
    rw [bumpPhase_cons]
    rcases List.mem_cons.mp hmem with h | h
    · subst h
      exact bumpPhase_err_isSome_mono _ _ _
        (bumpStep_errOther_isSome _ _ _ _ hinc hview)
    · exact ih _ h

theorem bumpPhase_toRelease_mono (env : Env) (s : St) (pkgs : List Pkg) (k : String)
    (h : k ∈ s.toRelease.map Prod.fst) :
    k ∈ (bumpPhase env s pkgs).toRelease.map Prod.fst := by
  induction pkgs generalizing s with
  | nil => exact h
  | cons p rest ih => exact ih _ (bumpStep_toRelease_mono _ _ _ _ h)

theorem bumpPhase_toRelease_mem (env : Env) (s : St) (pkgs : List Pkg)
    (pkg : Pkg) (vnew : String) (hmem : pkg ∈ pkgs)
    (hinc : env.inc pkg.version ("git." ++ env.gitVersion) = some vnew)
    (hview : env.view (pkg.name ++ "@" ++ vnew) = ViewResult.errNotFound) :
    (pkg.name ++ "@" ++ vnew) ∈ (bumpPhase env s pkgs).toRelease.map Prod.fst := by
  induction pkgs generalizing s with
  | nil => cases hmem
  | cons p rest ih =>
    rw [bumpPhase_cons]
    rcases List.mem_cons.mp hmem with h | h
    · subst h
      exact bumpPhase_toRelease_mono _ _ _ _
        (bumpStep_toRelease_add _ _ _ _ hinc hview)
    · exact ih _ h

theorem bumpPhase_toRelease_not_mem (env : Env) (s : St) (pkgs : List Pkg) (k : String)
    (h : k ∉ s.toRelease.map Prod.fst)
    (hk : ∀ q ∈ pkgs, ∀ v,
      env.inc q.version ("git." ++ env.gitVersion) = some v →
      env.view (q.name ++ "@" ++ v) = ViewResult.errNotFound →
      q.name ++ "@" ++ v ≠ k) :
    k ∉ (bumpPhase env s pkgs).toRelease.map Prod.fst := by
  induction pkgs generalizing s with
  | nil => exact h
  | cons p rest ih =>
    exact ih _
      (bumpStep_toRelease_not_add _ _ _ _ h (hk p (List.mem_cons_self ..)))
      fun q hq => hk q (List.mem_cons_of_mem _ hq)

theorem bumpPhase_trace_seg (env : Env) (s : St) (pkgs : List Pkg) :
    ∃ t, (bumpPhase env s pkgs).trace = s.trace ++ t ∧
      (∀ c ∈ t, Call.isManifestOrView c = true) ∧
      (∀ p, Call.manifestWrite p ∈ t → ∃ q ∈ pkgs, q.path = p ∧
        (env.inc q.version ("git." ++ env.gitVersion)).isSome = true) := by
  induction pkgs generalizing s with
  | nil => exact ⟨[], by simp [bumpPhase], by simp, by simp⟩
  | cons p rest ih =>
    obtain ⟨t1, ht1, hP1, hW1⟩ := bumpStep_trace_seg env s p
    obtain ⟨t2, ht2, hP2, hW2⟩ := ih (bumpStep env s p)
    refine ⟨t1 ++ t2, ?_, ?_, ?_⟩
    · rw [bumpPhase_cons, ht2, ht1, List.append_assoc]
    · intro c hc
      rcases List.mem_append.mp hc with h | h
      · exact hP1 c h
      · exact hP2 c h
    · intro pth hw
      rcases List.mem_append.mp hw with h | h
      · obtain ⟨hpe, hs⟩ := hW1 pth h
        exact ⟨p, List.mem_cons_self .., hpe.symm, hs⟩
      · obtain ⟨q, hq, hqp, hs⟩ := hW2 pth h
        exact ⟨q, List.mem_cons_of_mem _ hq, hqp, hs⟩

theorem bumpPhase_disk_other (env : Env) (s : St) (pkgs : List Pkg) (q : String)
    (h : ∀ p ∈ pkgs, p.path ≠ q) : (bumpPhase env s pkgs).disk q = s.disk q := by
  induction pkgs generalizing s with
  | nil => rfl
  | cons p rest ih =>
    rw [bumpPhase_cons, ih _ fun x hx => h x (List.mem_cons_of_mem _ hx)]
    exact bumpStep_disk_other _ _ _ _ fun hq => h p (List.mem_cons_self ..) hq.symm

theorem bumpPhase_disk_none (env : Env) (s : St) (pkgs : List Pkg) (pkg : Pkg)
    (hmem : pkg ∈ pkgs) (hnd : (pkgs.map Pkg.path).Nodup)
    (hinc : env.inc pkg.version ("git." ++ env.gitVersion) = none) :
    (bumpPhase env s pkgs).disk pkg.path = s.disk pkg.path := by
  induction pkgs generalizing s with
  | nil => rfl
  | cons p rest ih =>
    have hnd' : p.path ∉ rest.map Pkg.path ∧ (rest.map Pkg.path).Nodup := by
      rw [List.map_cons] at hnd
      exact List.nodup_cons.mp hnd
    by_cases hpp : p.path = pkg.path
    · have hpq : p = pkg :=
        List.inj_on_of_nodup_map hnd (List.mem_cons_self ..) hmem hpp
      subst hpq
      rw [bumpPhase_cons, bumpStep_none _ _ _ hinc]
      apply bumpPhase_disk_other
      intro q hq he
      exact hnd'.1 (he ▸ List.mem_map_of_mem Pkg.path hq)
    · have hpm : pkg ∈ rest := by
        rcases List.mem_cons.mp hmem with h | h
        · exact absurd (congrArg Pkg.path h.symm) hpp
        · exact h
      rw [bumpPhase_cons, ih _ hpm hnd'.2]
      exact bumpStep_disk_other _ _ _ _ fun he => hpp he.symm

theorem publishPhase_toRelease (env : Env) (pkgs : List Pkg) (s : St) :
    (publishPhase env pkgs s).toRelease = s.toRelease := by
  unfold publishPhase
  dsimp only
  split_ifs <;> rfl

theorem publishPhase_disk (env : Env) (pkgs : List Pkg) (s : St) :
    (publishPhase env pkgs s).disk = s.disk := by
  unfold publishPhase
  dsimp only
  split_ifs <;> rfl

theorem publishPhase_shape_postfail (env : Env) (pkgs : List Pkg) (s : St)
    (hpre : env.prepublishOk = true) (hpost : env.postpublishOk = false) :
    publishPhase env pkgs s =
      { s with
        trace := s.trace ++ [Call.npmRunPrepublishOnly,
          Call.npmPublish (pkgs.map Pkg.location) "ci" true,
          Call.npmRunPostpublish]
        err := some Err.postpublishFailed } := by
  unfold publishPhase
  dsimp only
  rw [hpre, hpost]
  simp

theorem publishPhase_shape_pubfail (env : Env) (pkgs : List Pkg) (s : St)
    (hpre : env.prepublishOk = true) (hpost : env.postpublishOk = true)
    (hpub : env.publishOk = false) :
    publishPhase env pkgs s =
      { s with
        trace := s.trace ++ [Call.npmRunPrepublishOnly,
          Call.npmPublish (pkgs.map Pkg.location) "ci" true,
          Call.npmRunPostpublish]
        err := some Err.publishFailed } := by
  unfold publishPhase
  dsimp only
  rw [hpre, hpost, hpub]
  simp

theorem publishPhase_shape_allok (env : Env) (pkgs : List Pkg) (s : St)
    (hpre : env.prepublishOk = true) (hpost : env.postpublishOk = true)
    (hpub : env.publishOk = true) :
    publishPhase env pkgs s =
      { s with
        trace := s.trace ++ [Call.npmRunPrepublishOnly,
          Call.npmPublish (pkgs.map Pkg.location) "ci" true,
          Call.npmRunPostpublish] } := by
  unfold publishPhase
  dsimp only
  rw [hpre, hpost, hpub]
  simp

theorem distTagPhase_toRelease (env : Env) (s : St) :
    (distTagPhase env s).toRelease = s.toRelease := by
  unfold distTagPhase
  dsimp only
  split <;> rfl

theorem distTagPhase_disk (env : Env) (s : St) :
    (distTagPhase env s).disk = s.disk := by
  unfold distTagPhase
  dsimp only
  split <;> rfl

theorem distTagPhase_trace (env : Env) (s : St) :
    (distTagPhase env s).trace =
      s.trace ++ (sortKeys (s.toRelease.map Prod.fst)).map
        fun k => Call.distTagAdd k "edge" := by
  unfold distTagPhase
  dsimp only
  split <;> rfl

theorem ciBody_of_bump_err (env : Env) (pkgs : List Pkg) (s : St) (e : Err)
    (he : (bumpPhase env s pkgs).err = some e) :
    ciBody env pkgs s = bumpPhase env s pkgs := by
  unfold ciBody
  dsimp only
  rw [he]

theorem ciBody_of_bump_ok (env : Env) (pkgs : List Pkg) (s : St)
    (he : (bumpPhase env s pkgs).err = none) :
    ciBody env pkgs s = publishPhase env pkgs (bumpPhase env s pkgs) := by
  unfold ciBody
  dsimp only
  rw [he]

theorem tryBody_not_ci (env : Env) (t : Option String) (pkgs : List Pkg) (s : St)
    (h : t ≠ some "ci") :
    tryBody env t pkgs s = { s with err := some Err.badType } := by
  unfold tryBody
  dsimp only
  rw [if_neg h]

theorem tryBody_ci_of_err (env : Env) (pkgs : List Pkg) (s : St) (e : Err)
    (he : (ciBody env pkgs s).err = some e) :
    tryBody env (some "ci") pkgs s = ciBody env pkgs s := by
  unfold tryBody
  dsimp only
  rw [if_pos rfl, he]

theorem tryBody_ci_of_ok (env : Env) (pkgs : List Pkg) (s : St)
    (he : (ciBody env pkgs s).err = none) :
    tryBody env (some "ci") pkgs s = distTagPhase env (ciBody env pkgs s) := by
  unfold tryBody
  dsimp only
  rw [if_pos rfl, he]

theorem run_ok_eq (t : Option String) (env : Env) (disk0 : Disk)
    (h1 : env.queryOk = true) (h2 : env.gitDescribeOk = true)
    (h3 : env.gitRevParseOk = true) :
    run t env disk0 =
      restorePhase
        (tryBody env t (filterPkgs env.cwd env.queryResult) (initSt disk0))
        (filterPkgs env.cwd env.queryResult) := by
  unfold run
  dsimp only
  rw [h1, h2, h3]
  simp [initSt]

theorem sortKeys_sorted (l : List String) : (sortKeys l).Sorted keyLe :=
  List.sorted_insertionSort keyLe l

theorem sortKeys_perm (l : List String) : List.Perm (sortKeys l) l :=
  List.perm_insertionSort keyLe l

theorem sortKeys_eq_of_perm (l1 l2 : List String) (h : List.Perm l1 l2) :
    sortKeys l1 = sortKeys l2 :=
  List.eq_of_perm_of_sorted (r := keyLe)
    ((List.perm_insertionSort keyLe l1).trans
      (h.trans (List.perm_insertionSort keyLe l2).symm))
    (List.sorted_insertionSort keyLe l1)
    (List.sorted_insertionSort keyLe l2)

theorem sortKeys_strict_of_nodup (l : List String) (h : l.Nodup) :
    (sortKeys l).Pairwise fun a b => keyLe a b ∧ a ≠ b := by
  have h1 : (sortKeys l).Pairwise keyLe := sortKeys_sorted l
  have h2 : (sortKeys l).Nodup := (sortKeys_perm l).symm.nodup h
  exact h1.and h2

theorem isPublish_false_of_mv (c : Call) (h : Call.isManifestOrView c = true) :
    Call.isPublish c = false := by
  cases c <;> simp_all [Call.isManifestOrView, Call.isPublish]

theorem ne_postpublish_of_mv (c : Call) (h : Call.isManifestOrView c = true) :
    c ≠ Call.npmRunPostpublish := by
  cases c <;> simp_all [Call.isManifestOrView]

theorem ne_prepublish_of_mv (c : Call) (h : Call.isManifestOrView c = true) :
    c ≠ Call.npmRunPrepublishOnly := by
  cases c <;> simp_all [Call.isManifestOrView]

theorem distTagKeys_append (a b : List Call) :
    distTagKeys (a ++ b) = distTagKeys a ++ distTagKeys b :=
  List.filterMap_append ..

theorem distTagKeys_nil_of_mv (t : List Call)
    (h : ∀ c ∈ t, Call.isManifestOrView c = true) : distTagKeys t = [] := by
  unfold distTagKeys
  rw [List.filterMap_eq_nil_iff]
  intro c hc
  have := h c hc
  cases c <;> simp_all [Call.isManifestOrView]

theorem distTagKeys_map_add (keys : List String) :
    distTagKeys (keys.map fun k => Call.distTagAdd k "edge") = keys := by
  unfold distTagKeys
  rw [List.filterMap_map]
  induction keys with
  | nil => rfl
  | cons k rest ih => simp [List.filterMap_cons, ih]

theorem tryBody_ci_publish_shape (env : Env) (pkgs : List Pkg) (s : St)
    (hs : s.err = none)
    (hb : ∀ pkg ∈ pkgs, ∀ v,
      env.inc pkg.version ("git." ++ env.gitVersion) = some v →
      env.view (pkg.name ++ "@" ++ v) ≠ ViewResult.errOther)
    (hpre : env.prepublishOk = true) :
    ∃ tb td,
      (∀ c ∈ tb, Call.isManifestOrView c = true) ∧
      (∀ c ∈ td, ∃ k, c = Call.distTagAdd k "edge") ∧
      (tryBody env (some "ci") pkgs s).trace =
        s.trace ++ tb ++
          [Call.npmRunPrepublishOnly,
           Call.npmPublish (pkgs.map Pkg.location) "ci" true,
           Call.npmRunPostpublish] ++ td ∧
      (tryBody env (some "ci") pkgs s).toRelease = (bumpPhase env s pkgs).toRelease ∧
      (tryBody env (some "ci") pkgs s).disk = (bumpPhase env s pkgs).disk ∧
      (env.postpublishOk = false →
        (tryBody env (some "ci") pkgs s).err = some Err.postpublishFailed) ∧
      (env.postpublishOk = true → env.publishOk = false →
        (tryBody env (some "ci") pkgs s).err = some Err.publishFailed) ∧
      (env.postpublishOk = true → env.publishOk = true →
        td = (sortKeys ((bumpPhase env s pkgs).toRelease.map Prod.fst)).map
          fun k => Call.distTagAdd k "edge") := by
  have hbe : (bumpPhase env s pkgs).err = none := bumpPhase_err_none _ _ _ hs hb
  have hci : ciBody env pkgs s = publishPhase env pkgs (bumpPhase env s pkgs) :=
    ciBody_of_bump_ok _ _ _ hbe
  obtain ⟨tb, htb, hPb, _⟩ := bumpPhase_trace_seg env s pkgs
  cases hpost : env.postpublishOk with
  | false =>
    have hPP := publishPhase_shape_postfail env pkgs (bumpPhase env s pkgs) hpre hpost
    have hcierr : (ciBody env pkgs s).err = some Err.postpublishFailed := by
      rw [hci, hPP]
    have htry := tryBody_ci_of_err env pkgs s _ hcierr
    refine ⟨tb, [], hPb, by simp, ?_, ?_, ?_, ?_, ?_, ?_⟩
    · rw [htry, hci, hPP]
      show (bumpPhase env s pkgs).trace ++ _ = _
      rw [htb]
      simp [List.append_assoc]
    · rw [htry, hci, hPP]
    · rw [htry, hci, hPP]
    · intro _
      rw [htry, hcierr]
    · intro h
      simp [hpost] at h
    · intro h
      simp [hpost] at h
  | true =>
    cases hpub : env.publishOk with
    | false =>
      have hPP := publishPhase_shape_pubfail env pkgs (bumpPhase env s pkgs) hpre hpost hpub
      have hcierr : (ciBody env pkgs s).err = some Err.publishFailed := by
        rw [hci, hPP]
      have htry := tryBody_ci_of_err env pkgs s _ hcierr
      refine ⟨tb, [], hPb, by simp, ?_, ?_, ?_, ?_, ?_, ?_⟩
      · rw [htry, hci, hPP]
        show (bumpPhase env s pkgs).trace ++ _ = _
        rw [htb]
        simp [List.append_assoc]
      · rw [htry, hci, hPP]
      · rw [htry, hci, hPP]
      · intro h
        simp [hpost] at h
      · intro _ _
        rw [htry, hcierr]
      · intro _ h
        simp [hpub] at h
    | true =>
      have hPP := publishPhase_shape_allok env pkgs (bumpPhase env s pkgs) hpre hpost hpub
      have hciok : (ciBody env pkgs s).err = none := by
        rw [hci, hPP]
        exact hbe
      have htry := tryBody_ci_of_ok env pkgs s hciok
      have htrel : (ciBody env pkgs s).toRelease = (bumpPhase env s pkgs).toRelease := by
        rw [hci, hPP]
      refine ⟨tb,
        (sortKeys ((bumpPhase env s pkgs).toRelease.map Prod.fst)).map
          (fun k => Call.distTagAdd k "edge"),
        hPb, ?_, ?_, ?_, ?_, ?_, ?_, ?_⟩
      · intro c hc
        obtain ⟨k, _, hk⟩ := List.mem_map.mp hc
        exact ⟨k, hk.symm⟩
      · rw [htry, distTagPhase_trace, htrel, hci, hPP]
        show (bumpPhase env s pkgs).trace ++ _ ++ _ = _
        rw [htb]
      · rw [htry, distTagPhase_toRelease, htrel]
      · rw [htry, distTagPhase_disk, hci, hPP]
      · intro h
        simp [hpost] at h
      · intro _ h
        simp [hpub] at h
      · intro _ _
        rfl

theorem run_ci_publish_shape (env : Env) (disk0 : Disk)
    (h1 : env.queryOk = true) (h2 : env.gitDescribeOk = true)
    (h3 : env.gitRevParseOk = true)
    (hb : ∀ pkg ∈ filterPkgs env.cwd env.queryResult, ∀ v,
      env.inc pkg.version ("git." ++ env.gitVersion) = some v →
      env.view (pkg.name ++ "@" ++ v) ≠ ViewResult.errOther)
    (hpre : env.prepublishOk = true) :
    ∃ tb td tr,
      (∀ c ∈ tb, Call.isManifestOrView c = true) ∧
      (∀ c ∈ td, ∃ k, c = Call.distTagAdd k "edge") ∧
      (∀ c ∈ tr, Call.isManifestOrView c = true) ∧
      (run (some "ci") env disk0).trace =
        [Call.npmQuery, Call.gitDescribe, Call.gitRevParse] ++ tb ++
          [Call.npmRunPrepublishOnly,
           Call.npmPublish ((filterPkgs env.cwd env.queryResult).map Pkg.location)
             "ci" true,
           Call.npmRunPostpublish] ++ td ++ tr ∧
      (env.postpublishOk = false →
        (run (some "ci") env disk0).err = some Err.postpublishFailed) ∧
      (env.postpublishOk = true → env.publishOk = false →
        (run (some "ci") env disk0).err = some Err.publishFailed) ∧
      (env.postpublishOk = true → env.publishOk = true →
        td = (sortKeys ((run (some "ci") env disk0).toRelease.map Prod.fst)).map
          fun k => Call.distTagAdd k "edge") := by
  obtain ⟨tb, td, hPb, hPd, htrace, htrel, _, herr1, herr2, htd⟩ :=
    tryBody_ci_publish_shape env (filterPkgs env.cwd env.queryResult)
      (initSt disk0) rfl hb hpre
  obtain ⟨tr, htr, hPr, _⟩ :=
    restorePhase_trace_seg
      (tryBody env (some "ci") (filterPkgs env.cwd env.queryResult) (initSt disk0))
      (filterPkgs env.cwd env.queryResult)
  rw [run_ok_eq _ _ _ h1 h2 h3]
  refine ⟨tb, td, tr, hPb, hPd, hPr, ?_, ?_, ?_, ?_⟩
  · rw [htr, htrace]
    simp [initSt, List.append_assoc]
  · intro h
    rw [restorePhase_err]
    exact herr1 h
  · intro h h'
    rw [restorePhase_err]
    exact herr2 h h'
  · intro h h'
    rw [restorePhase_toRelease, htrel]
    exact htd h h'

theorem run_not_ci (t : Option String) (env : Env) (disk0 : Disk)
    (h1 : env.queryOk = true) (h2 : env.gitDescribeOk = true)
    (h3 : env.gitRevParseOk = true) (hne : t ≠ some "ci")
    (hcons : ∀ q ∈ filterPkgs env.cwd env.queryResult,
      disk0 q.path = pkgManifest q) :
    run t env disk0 =
      { disk := disk0
        trace := [Call.npmQuery, Call.gitDescribe, Call.gitRevParse] ++
          (filterPkgs env.cwd env.queryResult).map fun q => Call.manifestRead q.path
        toRelease := []
        err := some Err.badType } := by
  rw [run_ok_eq _ _ _ h1 h2 h3, tryBody_not_ci _ _ _ _ hne,
    restorePhase_noop _ _ fun q hq => hcons q hq]
  rfl

theorem run_ci_bump_err (env : Env) (disk0 : Disk)
    (h1 : env.queryOk = true) (h2 : env.gitDescribeOk = true)
    (h3 : env.gitRevParseOk = true)
    (hsome : (bumpPhase env (initSt disk0)
      (filterPkgs env.cwd env.queryResult)).err.isSome = true) :
    (run (some "ci") env disk0).err.isSome = true ∧
    (run (some "ci") env disk0).trace.countP Call.isPublish = 0 := by
  obtain ⟨e, he⟩ := Option.isSome_iff_exists.mp hsome
  have hci : ciBody env (filterPkgs env.cwd env.queryResult) (initSt disk0) =
      bumpPhase env (initSt disk0) (filterPkgs env.cwd env.queryResult) :=
    ciBody_of_bump_err _ _ _ e he
  have hcierr : (ciBody env (filterPkgs env.cwd env.queryResult) (initSt disk0)).err
      = some e := by
    rw [hci]
    exact he
  have htry := tryBody_ci_of_err env (filterPkgs env.cwd env.queryResult)
    (initSt disk0) _ hcierr
  obtain ⟨tb, htb, hPb, _⟩ :=
    bumpPhase_trace_seg env (initSt disk0) (filterPkgs env.cwd env.queryResult)
  obtain ⟨tr, htr, hPr, _⟩ :=
    restorePhase_trace_seg
      (tryBody env (some "ci") (filterPkgs env.cwd env.queryResult) (initSt disk0))
      (filterPkgs env.cwd env.queryResult)
  rw [run_ok_eq _ _ _ h1 h2 h3]
  constructor
  · rw [restorePhase_err, htry, hcierr]
    rfl
  · rw [htr, htry, hci, htb]
    rw [List.countP_append, List.countP_append]
    have c0 : (initSt disk0).trace.countP Call.isPublish = 0 := rfl
    have c1 : tb.countP Call.isPublish = 0 := by
      rw [List.countP_eq_zero]
      intro c hc
      rw [isPublish_false_of_mv c (hPb c hc)]
      simp
    have c2 : tr.countP Call.isPublish = 0 := by
      rw [List.countP_eq_zero]
      intro c hc
      rw [isPublish_false_of_mv c (hPr c hc)]
      simp
    rw [c0, c1, c2]

theorem tryBody_ci_toRelease (env : Env) (pkgs : List Pkg) (s : St) :
    (tryBody env (some "ci") pkgs s).toRelease = (bumpPhase env s pkgs).toRelease := by
  cases hbe : (bumpPhase env s pkgs).err with
  | some e =>
    rw [tryBody_ci_of_err env pkgs s e (by rw [ciBody_of_bump_err _ _ _ e hbe]; exact hbe),
      ciBody_of_bump_err _ _ _ e hbe]
  | none =>
    have hci := ciBody_of_bump_ok env pkgs s hbe
    cases hpe : (publishPhase env pkgs (bumpPhase env s pkgs)).err with
    | some e =>
      rw [tryBody_ci_of_err env pkgs s e (by rw [hci]; exact hpe), hci]
      exact publishPhase_toRelease ..
    | none =>
      rw [tryBody_ci_of_ok env pkgs s (by rw [hci]; exact hpe), hci,
        distTagPhase_toRelease]
      exact publishPhase_toRelease ..

theorem tryBody_ci_disk (env : Env) (pkgs : List Pkg) (s : St) :
    (tryBody env (some "ci") pkgs s).disk = (bumpPhase env s pkgs).disk := by
  cases hbe : (bumpPhase env s pkgs).err with
  | some e =>
    rw [tryBody_ci_of_err env pkgs s e (by rw [ciBody_of_bump_err _ _ _ e hbe]; exact hbe),
      ciBody_of_bump_err _ _ _ e hbe]
  | none =>
    have hci := ciBody_of_bump_ok env pkgs s hbe
    cases hpe : (publishPhase env pkgs (bumpPhase env s pkgs)).err with
    | some e =>
      rw [tryBody_ci_of_err env pkgs s e (by rw [hci]; exact hpe), hci]
      exact publishPhase_disk ..
    | none =>
      rw [tryBody_ci_of_ok env pkgs s (by rw [hci]; exact hpe), hci,
        distTagPhase_disk]
      exact publishPhase_disk ..

theorem publishPhase_trace_seg (env : Env) (pkgs : List Pkg) (s : St) :
    ∃ t, (publishPhase env pkgs s).trace = s.trace ++ t ∧
      ∀ p, Call.manifestWrite p ∉ t := by
  unfold publishPhase
  dsimp only
  split_ifs
  · exact ⟨[Call.npmRunPrepublishOnly, Call.npmPublish (pkgs.map Pkg.location) "ci" true,
      Call.npmRunPostpublish], by simp, by intro p hp; simp at hp⟩
  · exact ⟨[Call.npmRunPrepublishOnly, Call.npmPublish (pkgs.map Pkg.location) "ci" true,
      Call.npmRunPostpublish], by simp, by intro p hp; simp at hp⟩
  · exact ⟨[Call.npmRunPrepublishOnly, Call.npmPublish (pkgs.map Pkg.location) "ci" true,
      Call.npmRunPostpublish], by simp, by intro p hp; simp at hp⟩
  · exact ⟨[Call.npmRunPrepublishOnly], by simp, by intro p hp; simp at hp⟩

theorem tryBody_ci_trace_seg (env : Env) (pkgs : List Pkg) (s : St) :
    ∃ t, (tryBody env (some "ci") pkgs s).trace = (bumpPhase env s pkgs).trace ++ t ∧
      ∀ p, Call.manifestWrite p ∉ t := by
  cases hbe : (bumpPhase env s pkgs).err with
  | some e =>
    rw [tryBody_ci_of_err env pkgs s e (by rw [ciBody_of_bump_err _ _ _ e hbe]; exact hbe),
      ciBody_of_bump_err _ _ _ e hbe]
    exact ⟨[], by simp, by simp⟩
  | none =>
    have hci := ciBody_of_bump_ok env pkgs s hbe
    obtain ⟨tp, htp, hnp⟩ := publishPhase_trace_seg env pkgs (bumpPhase env s pkgs)
    cases hpe : (publishPhase env pkgs (bumpPhase env s pkgs)).err with
    | some e =>
      rw [tryBody_ci_of_err env pkgs s e (by rw [hci]; exact hpe), hci]
      exact ⟨tp, htp, hnp⟩
    | none =>
      rw [tryBody_ci_of_ok env pkgs s (by rw [hci]; exact hpe), hci,
        distTagPhase_trace, htp]
      refine ⟨tp ++ (sortKeys ((publishPhase env pkgs
          (bumpPhase env s pkgs)).toRelease.map Prod.fst)).map
          (fun k => Call.distTagAdd k "edge"), by rw [List.append_assoc], ?_⟩
      intro p hp
      rcases List.mem_append.mp hp with h | h
      · exact hnp p h
      · obtain ⟨k, _, hk⟩ := List.mem_map.mp h
        cases hk

theorem run_query_fail (t : Option String) (env : Env) (disk0 : Disk)
    (h : env.queryOk = false) :
    run t env disk0 =
      { disk := disk0, trace := [Call.npmQuery], toRelease := [],
        err := some Err.queryFailed } := by
  unfold run
  dsimp only
  rw [h]
  simp

theorem run_describe_fail (t : Option String) (env : Env) (disk0 : Disk)
    (h1 : env.queryOk = true) (h : env.gitDescribeOk = false) :
    run t env disk0 =
      { disk := disk0, trace := [Call.npmQuery, Call.gitDescribe], toRelease := [],
        err := some Err.gitFailed } := by
  unfold run
  dsimp only
  rw [h1, h]
  simp

theorem run_revparse_fail (t : Option String) (env : Env) (disk0 : Disk)
    (h1 : env.queryOk = true) (h2 : env.gitDescribeOk = true)
    (h : env.gitRevParseOk = false) :
    run t env disk0 =
      { disk := disk0, trace := [Call.npmQuery, Call.gitDescribe, Call.gitRevParse],
        toRelease := [], err := some Err.gitFailed } := by
  unfold run
  dsimp only
  rw [h1, h2, h]
  simp

/-- C1: for every terminating run (any mode flag, any environment) and every
discovered workspace package whose on-disk manifest agrees with its package
record at process start (as `npm query` guarantees) and whose path is not
shared with another discovered package, the manifest's version and revision
fields at process end equal their values at process start: the restore block
of the outermost cleanup runs on success and failure paths alike and writes
the original values back (manifest writes themselves always succeed in this
model, matching the claim's proviso about failing restore writes). -/
theorem c1_restore_invariant (argsType : Option String) (env : Env) (disk0 : Disk)
    (pkg : Pkg) (hmem : pkg ∈ filterPkgs env.cwd env.queryResult)
    (hnd : ((filterPkgs env.cwd env.queryResult).map Pkg.path).Nodup)
    (hcons : disk0 pkg.path = pkgManifest pkg) :
    (run argsType env disk0).disk pkg.path = disk0 pkg.path := by
  cases hq : env.queryOk with
  | false => rw [run_query_fail _ _ _ hq]
  | true =>
    cases hd : env.gitDescribeOk with
    | false => rw [run_describe_fail _ _ _ hq hd]
    | true =>
      cases hr : env.gitRevParseOk with
      | false => rw [run_revparse_fail _ _ _ hq hd hr]
      | true =>
        rw [run_ok_eq _ _ _ hq hd hr,
          restorePhase_disk_mem _ _ _ hmem hnd, hcons]

/-- C1 witness: the invariant evaluated on the concrete one-package
environment. -/
theorem c1_restore_invariant_witness :
    pkgA ∈ filterPkgs envEx.cwd envEx.queryResult ∧
    (run (some "ci") envEx disk0Ex).disk pkgA.path = disk0Ex pkgA.path :=
  ⟨by decide,
    c1_restore_invariant (some "ci") envEx disk0Ex pkgA (by decide) (by decide)
      (by decide)⟩

/-- C2 counterexample: the claim says that with the mode flag omitted the
process exits with a configuration error having made zero external calls.
On the concrete one-package environment the run with `--type` omitted does
exit with the configuration error, but its trace contains three external
calls — the workspace query and the two version-control invocations — which
are issued before the mode switch is ever reached.  So "zero external calls"
is false. -/
theorem c2_counterexample :
    (run none envEx disk0Ex).err = some Err.badType ∧
    (run none envEx disk0Ex).trace.filter Call.isExternal =
      [Call.npmQuery, Call.gitDescribe, Call.gitRevParse] ∧
    ¬((run none envEx disk0Ex).trace.filter Call.isExternal = []) := by
  decide

/-- C2 amended: when the mode flag is omitted or differs from "ci" (and the
start-up query and git commands succeed, and the manifests agree with the
package records), the process exits with the fatal configuration error and
performs no registry view, no publish, no dist-tag call and no manifest
write, and the disk is untouched — but the workspace query and the two
version-control invocations have already been made before the mode check. -/
theorem c2_fatal_config_error (t : Option String) (env : Env) (disk0 : Disk)
    (hne : t ≠ some "ci")
    (h1 : env.queryOk = true) (h2 : env.gitDescribeOk = true)
    (h3 : env.gitRevParseOk = true)
    (hcons : ∀ q ∈ filterPkgs env.cwd env.queryResult,
      disk0 q.path = pkgManifest q) :
    (run t env disk0).err = some Err.badType ∧
    (run t env disk0).disk = disk0 ∧
    (run t env disk0).trace =
      [Call.npmQuery, Call.gitDescribe, Call.gitRevParse] ++
        (filterPkgs env.cwd env.queryResult).map (fun q => Call.manifestRead q.path) ∧
    (∀ k, Call.npmView k ∉ (run t env disk0).trace) ∧
    (run t env disk0).trace.countP Call.isPublish = 0 ∧
    (∀ k tag, Call.distTagAdd k tag ∉ (run t env disk0).trace) ∧
    (∀ p, Call.manifestWrite p ∉ (run t env disk0).trace) := by
  rw [run_not_ci t env disk0 h1 h2 h3 hne hcons]
  refine ⟨rfl, rfl, rfl, ?_, ?_, ?_, ?_⟩
  · intro k hk
    simp at hk
  · rw [List.countP_append]
    have c0 : List.countP Call.isPublish
        [Call.npmQuery, Call.gitDescribe, Call.gitRevParse] = 0 := rfl
    have c1 : ((filterPkgs env.cwd env.queryResult).map
        fun q => Call.manifestRead q.path).countP Call.isPublish = 0 := by
      rw [List.countP_eq_zero]
      intro c hc
      obtain ⟨q, _, hq⟩ := List.mem_map.mp hc
      rw [← hq]
      simp [Call.isPublish]
    rw [c0, c1]
  · intro k tag hk
    simp at hk
  · intro p hp
    simp at hp

/-- C2 witness: the amended claim evaluated with the flag omitted on the
concrete environment. -/
theorem c2_fatal_config_error_witness :
    (none : Option String) ≠ some "ci" ∧
    (run none envEx disk0Ex).err = some Err.badType := by
  refine ⟨by decide, ?_⟩
  exact (c2_fatal_config_error none envEx disk0Ex (by decide) rfl rfl rfl
    (by decide)).1

/-- C3: for a discovered package whose computed prerelease version differs
from its current version, the registry view outcome determines scheduling:
an E404 ("not found") failure puts the `name@version` pair into the
release-candidate set; any other failure leaves the run in error and no
publish invocation is ever issued; a successful view leaves the pair out of
the release-candidate set (the last part under the key-uniqueness condition
that no other scheduled package produces the same `name@version` key). -/
theorem c3_registry_outcome (env : Env) (disk0 : Disk) (pkg : Pkg) (vnew : String)
    (h1 : env.queryOk = true) (h2 : env.gitDescribeOk = true)
    (h3 : env.gitRevParseOk = true)
    (hmem : pkg ∈ filterPkgs env.cwd env.queryResult)
    (hinc : env.inc pkg.version ("git." ++ env.gitVersion) = some vnew) :
    (env.view (pkg.name ++ "@" ++ vnew) = ViewResult.errNotFound →
      (pkg.name ++ "@" ++ vnew) ∈
        (run (some "ci") env disk0).toRelease.map Prod.fst) ∧
    (env.view (pkg.name ++ "@" ++ vnew) = ViewResult.errOther →
      (run (some "ci") env disk0).err.isSome = true ∧
      (run (some "ci") env disk0).trace.countP Call.isPublish = 0) ∧
    (env.view (pkg.name ++ "@" ++ vnew) = ViewResult.ok →
      (∀ q ∈ filterPkgs env.cwd env.queryResult, ∀ v,
        env.inc q.version ("git." ++ env.gitVersion) = some v →
        env.view (q.name ++ "@" ++ v) = ViewResult.errNotFound →
        q.name ++ "@" ++ v ≠ pkg.name ++ "@" ++ vnew) →
      (pkg.name ++ "@" ++ vnew) ∉
        (run (some "ci") env disk0).toRelease.map Prod.fst) := by
  refine ⟨?_, ?_, ?_⟩
  · intro hview
    rw [run_ok_eq _ _ _ h1 h2 h3, restorePhase_toRelease, tryBody_ci_toRelease]
    exact bumpPhase_toRelease_mem env (initSt disk0) _ pkg vnew hmem hinc hview
  · intro hview
    exact run_ci_bump_err env disk0 h1 h2 h3
      (bumpPhase_err_isSome_of_mem env (initSt disk0) _ pkg vnew hmem hinc hview)
  · intro hview huniq
    rw [run_ok_eq _ _ _ h1 h2 h3, restorePhase_toRelease, tryBody_ci_toRelease]
    exact bumpPhase_toRelease_not_mem env (initSt disk0) _ _ (by simp [initSt]) huniq

/-- C3 witness: on the concrete environment the view probe reports E404 and
the pair is scheduled. -/
theorem c3_registry_outcome_witness :
    envEx.view (pkgA.name ++ "@" ++ "1.0.1-0.git.v1") = ViewResult.errNotFound ∧
    (pkgA.name ++ "@" ++ "1.0.1-0.git.v1") ∈
      (run (some "ci") envEx disk0Ex).toRelease.map Prod.fst := by
  refine ⟨rfl, ?_⟩
  exact (c3_registry_outcome envEx disk0Ex pkgA "1.0.1-0.git.v1" rfl rfl rfl
    (by decide) (by decide)).1 rfl

/-- C4: whenever the run reaches the publish step (bump fan-out raised no
error and the pre-publish hook succeeded), the post-publish hook appears
exactly once in the trace — on the success path and on the failing-publish
path alike — and when the publish invocation fails while the post-publish
hook succeeds, the publish error is the one the process exits with. -/
theorem c4_postpublish_always (env : Env) (disk0 : Disk)
    (h1 : env.queryOk = true) (h2 : env.gitDescribeOk = true)
    (h3 : env.gitRevParseOk = true)
    (hb : ∀ pkg ∈ filterPkgs env.cwd env.queryResult, ∀ v,
      env.inc pkg.version ("git." ++ env.gitVersion) = some v →
      env.view (pkg.name ++ "@" ++ v) ≠ ViewResult.errOther)
    (hpre : env.prepublishOk = true) :
    (run (some "ci") env disk0).trace.count Call.npmRunPostpublish = 1 ∧
    (env.publishOk = false → env.postpublishOk = true →
      (run (some "ci") env disk0).err = some Err.publishFailed) := by
  obtain ⟨tb, td, tr, hPb, hPd, hPr, htrace, _, herr2, _⟩ :=
    run_ci_publish_shape env disk0 h1 h2 h3 hb hpre
  refine ⟨?_, fun hpub hpost => herr2 hpost hpub⟩
  rw [htrace]
  rw [List.count_append, List.count_append, List.count_append, List.count_append]
  have c0 : List.count Call.npmRunPostpublish
      [Call.npmQuery, Call.gitDescribe, Call.gitRevParse] = 0 := rfl
  have c1 : tb.count Call.npmRunPostpublish = 0 := by
    rw [List.count_eq_zero]
    intro h
    exact ne_postpublish_of_mv _ (hPb _ h) rfl
  have c2 : List.count Call.npmRunPostpublish
      [Call.npmRunPrepublishOnly,
       Call.npmPublish ((filterPkgs env.cwd env.queryResult).map Pkg.location)
         "ci" true,
       Call.npmRunPostpublish] = 1 := by
    simp
  have c3 : td.count Call.npmRunPostpublish = 0 := by
    rw [List.count_eq_zero]
    intro h
    obtain ⟨k, hk⟩ := hPd _ h
    cases hk
  have c4 : tr.count Call.npmRunPostpublish = 0 := by
    rw [List.count_eq_zero]
    intro h
    exact ne_postpublish_of_mv _ (hPr _ h) rfl
  rw [c0, c1, c2, c3, c4]

/-- C4 witness: on the concrete environment with a failing publish, the
post-publish hook runs exactly once and the process exits with the publish
error. -/
theorem c4_postpublish_always_witness :
    envExPubFail.publishOk = false ∧
    (run (some "ci") envExPubFail disk0Ex).trace.count Call.npmRunPostpublish = 1 ∧
    (run (some "ci") envExPubFail disk0Ex).err = some Err.publishFailed := by
  have h := c4_postpublish_always envExPubFail disk0Ex rfl rfl rfl (by decide) rfl
  exact ⟨rfl, h.1, h.2 rfl rfl⟩

/-- C5: the manifest helper writes the file only when a proposed field
differs from the file's current value (its `optionsOld` return is non-null
exactly then, and the disk is untouched otherwise) — the rule governing both
the bump write and the restore write — and a discovered package whose
prerelease increment yields no new version never has its manifest rewritten
during the whole run (under start-state consistency and distinct paths). -/
theorem c5_write_only_if_diff (env : Env) (disk0 : Disk) (d : Disk) (pkg : Pkg)
    (n : Manifest) :
    ((changePackageOptions d pkg n).optionsOld.isSome = true ↔
      ((d pkg.path).version ≠ n.version ∨ (d pkg.path).gitHead ≠ n.gitHead)) ∧
    (Call.manifestWrite pkg.path ∈ (changePackageOptions d pkg n).trace ↔
      ((d pkg.path).version ≠ n.version ∨ (d pkg.path).gitHead ≠ n.gitHead)) ∧
    (¬((d pkg.path).version ≠ n.version ∨ (d pkg.path).gitHead ≠ n.gitHead) →
      (changePackageOptions d pkg n).disk = d) ∧
    (pkg ∈ filterPkgs env.cwd env.queryResult →
      ((filterPkgs env.cwd env.queryResult).map Pkg.path).Nodup →
      disk0 pkg.path = pkgManifest pkg →
      env.queryOk = true → env.gitDescribeOk = true → env.gitRevParseOk = true →
      env.inc pkg.version ("git." ++ env.gitVersion) = none →
      Call.manifestWrite pkg.path ∉ (run (some "ci") env disk0).trace) := by
  refine ⟨?_, ?_, ?_, ?_⟩
  · exact cpo_optionsOld_isSome_iff d pkg n
  · rw [cpo_write_mem_iff d pkg n pkg.path]
    simp
  · intro h
    rw [cpo_noop d pkg n h]
  · intro hmem hnd hcons h1 h2 h3 hinc
    have hdisk : (tryBody env (some "ci") (filterPkgs env.cwd env.queryResult)
        (initSt disk0)).disk pkg.path = pkgManifest pkg := by
      rw [tryBody_ci_disk,
        bumpPhase_disk_none env (initSt disk0) _ pkg hmem hnd hinc]
      exact hcons
    obtain ⟨tr, htr, hnwr⟩ :=
      restorePhase_no_write_self
        (tryBody env (some "ci") (filterPkgs env.cwd env.queryResult) (initSt disk0))
        (filterPkgs env.cwd env.queryResult) pkg hmem hnd hdisk
    obtain ⟨te, hte, hnwe⟩ :=
      tryBody_ci_trace_seg env (filterPkgs env.cwd env.queryResult) (initSt disk0)
    obtain ⟨tb, htb, _, hWb⟩ :=
      bumpPhase_trace_seg env (initSt disk0) (filterPkgs env.cwd env.queryResult)
    rw [run_ok_eq _ _ _ h1 h2 h3, htr, hte, htb]
    intro hw
    rcases List.mem_append.mp hw with hw | hw
    · rcases List.mem_append.mp hw with hw | hw
      · rcases List.mem_append.mp hw with hw | hw
        · simp [initSt] at hw
        · obtain ⟨q, hq, hqp, hqs⟩ := hWb _ hw
          have hqe : q = pkg := List.inj_on_of_nodup_map hnd hq hmem hqp
          rw [hqe, hinc] at hqs
          cases hqs
      · exact hnwe _ hw
    · exact hnwr hw

/-- C5 witness: on the concrete environment whose increment yields no new
version, the package's manifest is never written. -/
theorem c5_write_only_if_diff_witness :
    envExNoBump.inc pkgA.version ("git." ++ envExNoBump.gitVersion) = none ∧
    Call.manifestWrite pkgA.path ∉ (run (some "ci") envExNoBump disk0Ex).trace := by
  refine ⟨rfl, ?_⟩
  exact (c5_write_only_if_diff envExNoBump disk0Ex disk0Ex pkgA
      (pkgManifest pkgA)).2.2.2
    (by decide) (by decide) (by decide) rfl rfl rfl rfl

/-- C6: the discovered package list contains exactly the workspace query
results that are not private, whose path differs from the working directory,
and whose name starts with the `@ygg.tools/` scope; every package failing any
of the three conditions is absent from the filtered list the rest of the run
operates on. -/
theorem c6_discovery_filter (env : Env) (pkg : Pkg) :
    pkg ∈ filterPkgs env.cwd env.queryResult ↔
      pkg ∈ env.queryResult ∧ pkg.priv = false ∧ pkg.path ≠ env.cwd ∧
        strStartsWith pkg.name "@ygg.tools/" = true := by
  unfold filterPkgs
  rw [List.mem_filter]
  simp [Bool.and_eq_true, bne_iff_ne, and_assoc, Bool.not_eq_true']

/-- C7: on a run that reaches the tag-promotion step, the `dist-tag add
"edge"` calls are issued exactly in the sorted order of the candidate
`name@version` keys: the issued key sequence equals `sortKeys` of the
candidate keys, is sorted for the lexicographic order, is strictly ascending
when the keys are distinct (as they are for a `Map`), and is the same for
any two runs whose candidate key multisets agree. -/
theorem c7_dist_tag_order (env : Env) (disk0 : Disk)
    (h1 : env.queryOk = true) (h2 : env.gitDescribeOk = true)
    (h3 : env.gitRevParseOk = true)
    (hb : ∀ pkg ∈ filterPkgs env.cwd env.queryResult, ∀ v,
      env.inc pkg.version ("git." ++ env.gitVersion) = some v →
      env.view (pkg.name ++ "@" ++ v) ≠ ViewResult.errOther)
    (hpre : env.prepublishOk = true)
    (hpost : env.postpublishOk = true) (hpub : env.publishOk = true) :
    distTagKeys (run (some "ci") env disk0).trace =
      sortKeys ((run (some "ci") env disk0).toRelease.map Prod.fst) ∧
    (distTagKeys (run (some "ci") env disk0).trace).Sorted keyLe ∧
    (((run (some "ci") env disk0).toRelease.map Prod.fst).Nodup →
      (distTagKeys (run (some "ci") env disk0).trace).Pairwise
        fun a b => keyLe a b ∧ a ≠ b) ∧
    (∀ l, List.Perm l ((run (some "ci") env disk0).toRelease.map Prod.fst) →
      sortKeys l = sortKeys ((run (some "ci") env disk0).toRelease.map Prod.fst)) := by
  obtain ⟨tb, td, tr, hPb, hPd, hPr, htrace, _, _, htd⟩ :=
    run_ci_publish_shape env disk0 h1 h2 h3 hb hpre
  have hkeys : distTagKeys (run (some "ci") env disk0).trace =
      sortKeys ((run (some "ci") env disk0).toRelease.map Prod.fst) := by
    rw [htrace, htd hpost hpub]
    rw [distTagKeys_append, distTagKeys_append, distTagKeys_append,
      distTagKeys_append]
    rw [distTagKeys_nil_of_mv tb hPb, distTagKeys_nil_of_mv tr hPr,
      distTagKeys_map_add]
    have cfix : distTagKeys [Call.npmQuery, Call.gitDescribe, Call.gitRevParse]
        = [] := rfl
    have cseg : distTagKeys
        [Call.npmRunPrepublishOnly,
         Call.npmPublish ((filterPkgs env.cwd env.queryResult).map Pkg.location)
           "ci" true,
         Call.npmRunPostpublish] = [] := rfl
    rw [cfix, cseg]
    simp
  refine ⟨hkeys, ?_, ?_, ?_⟩
  · rw [hkeys]
    exact sortKeys_sorted _
  · intro hnd
    rw [hkeys]
    exact sortKeys_strict_of_nodup _ hnd
  · intro l hl
    exact sortKeys_eq_of_perm _ _ hl

/-- C7 witness: on the concrete environment the issued dist-tag key sequence
is the sorted candidate key list. -/
theorem c7_dist_tag_order_witness :
    envEx.postpublishOk = true ∧
    distTagKeys (run (some "ci") envEx disk0Ex).trace =
      sortKeys ((run (some "ci") envEx disk0Ex).toRelease.map Prod.fst) := by
  refine ⟨rfl, ?_⟩
  exact (c7_dist_tag_order envEx disk0Ex rfl rfl rfl (by decide) rfl rfl rfl).1

/-- C8: whenever the run reaches the publish step, the trace contains the
pre-publish preparation immediately followed by a single batched publish
invocation whose workspace arguments are the locations of every discovered
package, with distribution tag "ci" and the git-checks bypass flag; the
publish invocation and the pre-publish preparation each occur exactly once
in the whole run. -/
theorem c8_batched_publish (env : Env) (disk0 : Disk)
    (h1 : env.queryOk = true) (h2 : env.gitDescribeOk = true)
    (h3 : env.gitRevParseOk = true)
    (hb : ∀ pkg ∈ filterPkgs env.cwd env.queryResult, ∀ v,
      env.inc pkg.version ("git." ++ env.gitVersion) = some v →
      env.view (pkg.name ++ "@" ++ v) ≠ ViewResult.errOther)
    (hpre : env.prepublishOk = true) :
    (∃ t1 t2, (run (some "ci") env disk0).trace =
      t1 ++ [Call.npmRunPrepublishOnly,
        Call.npmPublish ((filterPkgs env.cwd env.queryResult).map Pkg.location)
          "ci" true] ++ t2) ∧
    (run (some "ci") env disk0).trace.countP Call.isPublish = 1 ∧
    (run (some "ci") env disk0).trace.count Call.npmRunPrepublishOnly = 1 := by
  obtain ⟨tb, td, tr, hPb, hPd, hPr, htrace, _, _, _⟩ :=
    run_ci_publish_shape env disk0 h1 h2 h3 hb hpre
  refine ⟨?_, ?_, ?_⟩
  · refine ⟨[Call.npmQuery, Call.gitDescribe, Call.gitRevParse] ++ tb,
      [Call.npmRunPostpublish] ++ td ++ tr, ?_⟩
    rw [htrace]
    simp [List.append_assoc]
  · rw [htrace]
    rw [List.countP_append, List.countP_append, List.countP_append,
      List.countP_append]
    have c0 : List.countP Call.isPublish
        [Call.npmQuery, Call.gitDescribe, Call.gitRevParse] = 0 := rfl
    have c1 : tb.countP Call.isPublish = 0 := by
      rw [List.countP_eq_zero]
      intro c hc
      rw [isPublish_false_of_mv c (hPb c hc)]
      simp
    have c2 : List.countP Call.isPublish
        [Call.npmRunPrepublishOnly,
         Call.npmPublish ((filterPkgs env.cwd env.queryResult).map Pkg.location)
           "ci" true,
         Call.npmRunPostpublish] = 1 := rfl
    have c3 : td.countP Call.isPublish = 0 := by
      rw [List.countP_eq_zero]
      intro c hc
      obtain ⟨k, hk⟩ := hPd _ hc
      rw [hk]
      simp [Call.isPublish]
    have c4 : tr.countP Call.isPublish = 0 := by
      rw [List.countP_eq_zero]
      intro c hc
      rw [isPublish_false_of_mv c (hPr c hc)]
      simp
    rw [c0, c1, c2, c3, c4]
  · rw [htrace]
    rw [List.count_append, List.count_append, List.count_append,
      List.count_append]
    have c0 : List.count Call.npmRunPrepublishOnly
        [Call.npmQuery, Call.gitDescribe, Call.gitRevParse] = 0 := rfl
    have c1 : tb.count Call.npmRunPrepublishOnly = 0 := by
      rw [List.count_eq_zero]
      intro h
      exact ne_prepublish_of_mv _ (hPb _ h) rfl
    have c2 : List.count Call.npmRunPrepublishOnly
        [Call.npmRunPrepublishOnly,
         Call.npmPublish ((filterPkgs env.cwd env.queryResult).map Pkg.location)
           "ci" true,
         Call.npmRunPostpublish] = 1 := by
      simp
    have c3 : td.count Call.npmRunPrepublishOnly = 0 := by
      rw [List.count_eq_zero]
      intro h
      obtain ⟨k, hk⟩ := hPd _ h
      cases hk
    have c4 : tr.count Call.npmRunPrepublishOnly = 0 := by
      rw [List.count_eq_zero]
      intro h
      exact ne_prepublish_of_mv _ (hPr _ h) rfl
    rw [c0, c1, c2, c3, c4]

/-- C8 witness: on the concrete environment the batched publish is issued
exactly once. -/
theorem c8_batched_publish_witness :
    envEx.prepublishOk = true ∧
    (run (some "ci") envEx disk0Ex).trace.countP Call.isPublish = 1 := by
  refine ⟨rfl, ?_⟩
  exact (c8_batched_publish envEx disk0Ex rfl rfl rfl (by decide) rfl).2.1

end Release

namespace BlockNote

/-- C9: the extension list contains the History extension exactly when no
collaboration option is provided; with a collaboration option the
Collaboration extension is always present, and the CollaborationCursor
extension is present exactly when the collaboration provider has a truthy
`awareness` property. -/
theorem c9_history_vs_collaboration (opts : GetExtensionsOptions) :
    (Ext.History ∈ getBlockNoteExtensions opts ↔ opts.collaboration = none) ∧
    (∀ c, opts.collaboration = some c →
      Ext.Collaboration ∈ getBlockNoteExtensions opts ∧
      (Ext.CollaborationCursor ∈ getBlockNoteExtensions opts ↔
        c.providerAwareness = true)) := by
  cases hc : opts.collaboration with
  | none =>
    constructor
    · simp [getBlockNoteExtensions, getBlockNoteExtensionGroups, historyGroup,
        editorGroup, hc]
    · intro c h
      cases h
  | some c0 =>
    constructor
    · cases ha : c0.providerAwareness <;>
        simp [getBlockNoteExtensions, getBlockNoteExtensionGroups, collabGroup,
          editorGroup, hc, ha]
    · intro c h
      cases h
      cases ha : c0.providerAwareness <;>
        simp [getBlockNoteExtensions, getBlockNoteExtensionGroups, collabGroup,
          editorGroup, hc, ha]

/-- C9 witness: with a collaboration option whose provider has awareness,
the Collaboration extension is included. -/
theorem c9_history_vs_collaboration_witness :
    optsEx.collaboration = some cEx ∧
    Ext.Collaboration ∈ getBlockNoteExtensions optsEx := by
  refine ⟨rfl, ?_⟩
  exact ((c9_history_vs_collaboration optsEx).2 cEx rfl).1

/-- C10: the "Editor" group is always the last group returned by
`getBlockNoteExtensionGroups`, and consequently the `BlockNoteUIExtension` is
the last element of the flattened list returned by
`getBlockNoteExtensions`. -/
theorem c10_editor_group_last (opts : GetExtensionsOptions) :
    (getBlockNoteExtensionGroups opts).getLast? = some editorGroup ∧
    (getBlockNoteExtensions opts).getLast? = some Ext.BlockNoteUIExtension := by
  constructor
  · unfold getBlockNoteExtensionGroups
    exact List.getLast?_concat _
  · unfold getBlockNoteExtensions
    unfold getBlockNoteExtensionGroups
    rw [List.flatMap_append]
    have he : ([editorGroup].flatMap fun group => group.extensions) =
        [Ext.BlockNoteUIExtension] := rfl
    rw [he]
    exact List.getLast?_concat _

end BlockNote
